import Mathlib

/-!
Verification development for the asset-resolution and RTP-disambiguation core
of the Player repository (`filefinder.cpp`).

The C++ core is shallowly embedded below.  Conventions of the embedding:

* The build modelled is the plain desktop one: `_WIN32`, `EMSCRIPTEN` and the
  console-specific `#ifdef` branches are not compiled in the modelled
  configuration and are omitted.
* External collaborators that are not part of the repository (the `lcf`
  normalizer, `Player::escape_symbol`, the translation-id provider, the RTP
  oracle tables, the platform file primitives) are parameters of the
  embedding (`Ctx`, `FS`), per the spec's "external interfaces" section.
* `std::string` is used through `String`, with all construction done via
  `String.mk` on `List Char` so that character-level reasoning is direct.
* The maps of `FileFinder::DirectoryTree` (a `string_map` per field) are
  association lists with `std::map`-style find / overwriting insert.
* Fallible or abnormal outcomes are `Option`: a `none` result models an
  abnormal execution of the C++ (a failed `assert`, an invalid iterator
  dereference, a non-terminating loop, or exhaustion of the recursion fuel
  used to make the mutually recursive lookup functions total in Lean).
  A C++ function that *returns* an "absent" value does so inside `some`.
-/

/-- Character replacement performed by `FileFinder::MakePath` on non-Windows
builds: every backslash becomes a forward slash. -/
def repl (c : Char) : Char := if c = '\\' then '/' else c

/-- String concatenation, done at the character-list level. -/
def strCat (a b : String) : String := String.mk (a.toList ++ b.toList)

/-- Splits a character list at every delimiter (a character satisfying `p`),
keeping empty tokens, as `Utils::Tokenize` does.  Modelled from the spec:
`Utils::Tokenize` is not part of the excerpt; per the spec's PathTokenizer
contract it splits the decoded code-point sequence on the delimiter code
points, and `FileFinder::MakeCanonical` explicitly handles the empty
segments produced between adjacent delimiters. -/
def tokSplit (p : Char → Bool) : List Char → List (List Char)
  | [] => [[]]
  | c :: rest =>
    if p c then [] :: tokSplit p rest
    else
      match tokSplit p rest with
      | [] => [[c]]
      | t :: ts => (c :: t) :: ts

/-- The leading code point of the escape symbol (`'\0'` when the escape
symbol is empty), as computed inside `FileFinder::SplitPath`. -/
def escChar (escape_symbol : String) : Char :=
  match escape_symbol.toList with
  | [] => Char.ofNat 0
  | c :: _ => c

/-- `FileFinder::SplitPath`: tokenizes a path on `'/'` and on the leading
code point of the active escape symbol. -/
def SplitPath (escape_symbol : String) (path : String) : List String :=
  (tokSplit (fun t => t = escChar escape_symbol || t = '/') path.toList).map String.mk

/-- `FileFinder::MakePath` (non-Windows branch): joins `dir` and `name` with
`'/'` (or returns `name` alone when `dir` is empty) and replaces every
backslash by a forward slash. -/
def MakePath (dir name : String) : String :=
  String.mk ((if dir = "" then name.toList else dir.toList ++ '/' :: name.toList).map repl)

/-- One step of `FileFinder::MakeCanonical`'s folding loop over the path
components.  State: retained components, remaining `initial_deepness`, and
the number of "Path traversal out of game directory" diagnostics issued. -/
def canonStep (st : List String × Int × Nat) (comp : String) : List String × Int × Nat :=
  if comp = ".." then
    if st.1 ≠ [] then (st.1.dropLast, st.2.1, st.2.2)
    else if st.2.1 > 0 then (st.1, st.2.1 - 1, st.2.2)
    else (st.1, st.2.1, st.2.2 + 1)
  else if comp = "" ∨ comp = "." then st
  else (st.1 ++ [comp], st.2.1, st.2.2)

/-- Rejoining loop at the end of `FileFinder::MakeCanonical`:
`for s in path_can: ret = MakePath(ret, s)`. -/
def joinPath (l : List String) : String := l.foldl MakePath ""

/-- `FileFinder::MakeCanonical`: splits, folds the components (`.`/empty
dropped, `..` pops or consumes `initial_deepness` or is ignored), rejoins. -/
def MakeCanonical (escape_symbol path : String) (initial_deepness : Int) : String :=
  joinPath ((SplitPath escape_symbol path).foldl canonStep ([], initial_deepness, 0)).1

/-- Number of "Path traversal out of game directory" debug diagnostics that
`FileFinder::MakeCanonical` logs for the given input. -/
def canonDiagCount (escape_symbol path : String) (initial_deepness : Int) : Nat :=
  ((SplitPath escape_symbol path).foldl canonStep ([], initial_deepness, 0)).2.2

example : SplitPath "\\" "a/b/../c" = ["a", "b", "..", "c"] := by decide
example : MakeCanonical "\\" "a/b/../c" 1 = "a/c" := by decide
example : MakeCanonical "\\" "../x" 1 = "x" := by decide
example : MakeCanonical "\\" "../../x" 1 = "x" := by decide
example : canonDiagCount "\\" "../../x" 1 = 1 := by decide
example : MakePath "a\\b" "c" = "a/b/c" := by decide

/-- First-occurrence substring replacement used by the escape-symbol loop in
the tree-level `FindFile`: finds the first occurrence of `esc` in `cs`
(`std::string::find`, which finds the empty needle at position 0), erases it
and inserts `'/'` there.  `none` when there is no occurrence. -/
def replaceFirst (esc : List Char) : List Char → Option (List Char)
  | [] => if esc = [] then some ['/'] else none
  | c :: rest =>
    if esc.isPrefixOf (c :: rest) then some ('/' :: (c :: rest).drop esc.length)
    else (replaceFirst esc rest).map (fun l => c :: l)

/-- The `while (escape_pos != npos)` loop of the tree-level `FindFile`,
replacing occurrences of the escape symbol by `'/'` until none is left.
The loop does not terminate for some escape symbols (for instance the empty
one); the fuel makes it total, and `none` models the non-terminating runs:
at most `cs.length` replacements happen in any terminating run, because each
replacement either shortens the string or lowers the occurrence count. -/
def escLoop (esc : List Char) : Nat → List Char → Option (List Char)
  | 0, _ => none
  | fuel + 1, cs =>
    match replaceFirst esc cs with
    | none => some cs
    | some cs' => escLoop esc fuel cs'

example : escLoop ['\\'] 5 "a\\b".toList = some "a/b".toList := by decide
example : escLoop [] 3 "ab".toList = none := by decide

/-- Association-list lookup, modelling `string_map::find`. -/
def mapFind? (m : List (String × String)) (k : String) : Option String :=
  match m with
  | [] => none
  | (k', v) :: rest => if k' = k then some v else mapFind? rest k

/-- Association-list overwriting insert, modelling `string_map::operator[]=`. -/
def mapInsert (m : List (String × String)) (k v : String) : List (String × String) :=
  match m with
  | [] => [(k, v)]
  | (k', v') :: rest => if k' = k then (k, v) :: rest else (k', v') :: mapInsert rest k v

/-- Range `insert` of `std::map` (lines 874-875): keys already present in
`dst` are kept, only absent keys of `src` are added. -/
def mapMergeKeep (dst src : List (String × String)) : List (String × String) :=
  match src with
  | [] => dst
  | (k, v) :: rest =>
    mapMergeKeep (if (mapFind? dst k).isSome then dst else dst ++ [(k, v)]) rest

/-- Lookup in the `sub_members` map (normalized directory key to the file
map of that directory). -/
def smFind? (m : List (String × List (String × String))) (k : String) :
    Option (List (String × String)) :=
  match m with
  | [] => none
  | (k', v) :: rest => if k' = k then some v else smFind? rest k

/-- Overwriting insert into the `sub_members` map. -/
def smInsert (m : List (String × List (String × String))) (k : String)
    (v : List (String × String)) : List (String × List (String × String)) :=
  match m with
  | [] => [(k, v)]
  | (k', v') :: rest => if k' = k then (k, v) :: rest else (k', v') :: smInsert rest k v

/-- `RTP::Type` (declared in the external `rtp.h`; modelled from the spec:
an opaque set of RTP variants among which the spurious Don Miguel add-on
variant is distinguished).  Only the constructors this file needs are
listed. -/
inductive RTPType
  | RPG2000_OfficialJapanese
  | RPG2000_OfficialEnglish
  | RPG2000_DonMiguelEnglish
  | RPG2000_DonMiguelAddon
  | RPG2003_OfficialJapanese
  | RPG2003_OfficialEnglish
deriving DecidableEq, Repr

/-- `FileFinder::DirectoryTree`: the indexed snapshot of one directory.
`files`/`directories` map normalized names to on-disk names; `sub_members`
maps a normalized directory key to that subdirectory's file map. -/
structure DirectoryTree where
  directory_path : String
  files : List (String × String)
  directories : List (String × String)
  sub_members : List (String × List (String × String))
deriving DecidableEq, Repr

/-- `RTP::RtpHitInfo` (external `rtp.h`; modelled from the spec) restricted
to the two fields `rtp_lookup` reads: the detected variant and its tree. -/
structure RtpHitInfo where
  rtype : RTPType
  tree : DirectoryTree
deriving DecidableEq, Repr

/-- One diagnostic line, tagged by emitting site.  `debug...` constructors
are `Output::Debug` lines, `warn...` constructors are `Output::Warning`
lines. -/
inductive LogMsg
  | debugGameUsesRtp (t : RTPType)
  | warnBrokenRtpGame
  | warnCannotFindRtp (noPaths : Bool) (dir name : String)
  | debugCannotFind (dir name : String)
  | warnFolderTwice (name : String)
  | warnFolderMergeHint
  | debugErrorOpeningDir (path : String)
deriving DecidableEq, Repr

/-- The anonymous-namespace `rtp_state` struct. -/
structure RtpState where
  search_paths : List DirectoryTree
  disable_rtp : Bool
  game_has_full_package_flag : Bool
  warning_broken_rtp_game_shown : Bool
  detected_rtp : List RtpHitInfo
  game_rtp : List RTPType
deriving DecidableEq, Repr

/-- The mutable process-wide state the lookup functions touch:
`game_directory_tree` (a possibly null shared pointer), `rtp_state`, and the
diagnostic log (newest line last). -/
structure Globals where
  tree : Option DirectoryTree
  rtp : RtpState
  log : List LogMsg
deriving DecidableEq, Repr

/-- Replaces `rtp_state.game_rtp`. -/
def setGameRtp (g : Globals) (s : List RTPType) : Globals :=
  ⟨g.tree, ⟨g.rtp.search_paths, g.rtp.disable_rtp, g.rtp.game_has_full_package_flag,
    g.rtp.warning_broken_rtp_game_shown, g.rtp.detected_rtp, s⟩, g.log⟩

/-- Sets `rtp_state.warning_broken_rtp_game_shown`. -/
def setWarnShown (g : Globals) : Globals :=
  ⟨g.tree, ⟨g.rtp.search_paths, g.rtp.disable_rtp, g.rtp.game_has_full_package_flag,
    true, g.rtp.detected_rtp, g.rtp.game_rtp⟩, g.log⟩

/-- Appends one diagnostic line. -/
def addLog (g : Globals) (m : LogMsg) : Globals := ⟨g.tree, g.rtp, g.log ++ [m]⟩

/-- The external collaborators consumed by the core, as interfaces (spec §6):
the `lcf::ReaderUtil::Normalize` normalizer, `Player::escape_symbol`,
`Player::EngineVersion`, the translation-id provider `Tr`, and the two RTP
oracle tables.  `oracleRtpToRtp` returns the translated name together with
the value the oracle writes through its `bool* is_rtp_asset` out parameter
(`none` when it leaves the pointee untouched). -/
structure Ctx where
  norm : String → String
  escape_symbol : String
  translationId : String
  translationDir : String
  version : Int
  oracleAny : String → String → Int → List RTPType
  oracleRtpToRtp : String → String → RTPType → RTPType → String × Option Bool

/-- First extension whose key `name ++ ext` is present in the directory map;
returns the stored on-disk name (the extension loop of the tree-level
`FindFile`, lines 150-157). -/
def extFirst (dir_map : List (String × String)) (n : String) : List String → Option String
  | [] => none
  | e :: es =>
    match mapFind? dir_map (strCat n e) with
    | some orig => some orig
    | none => extFirst dir_map n es

/-- Splits a character list at its first `'/'` (`find_first_of("/")` plus the
two `substr` calls of lines 116-128); `none` when there is no slash. -/
def splitSlash : List Char → Option (List Char × List Char)
  | [] => none
  | c :: cs =>
    if c = '/' then some ([], cs)
    else (splitSlash cs).map (fun p => (c :: p.1, p.2))

/-- Lines 131-159 of the tree-level `FindFile`: the escape-symbol
replacement loop on the (possibly corrected) name, the `directories` map
lookup (a miss returns the empty string), the *unchecked* dereference of
`tree.sub_members.find(corrected_dir)` — `none` (an invalid iterator
dereference) when the key is absent from `sub_members` — and the extension
loop over the subdirectory's file map. -/
def findInTree (ctx : Ctx) (g : Globals) (tree : DirectoryTree) (cd cn : String)
    (exts : List String) : Option (String × Globals) :=
  match escLoop ctx.escape_symbol.toList (cn.toList.length + 1) cn.toList with
  | none => none
  | some cn' =>
    match mapFind? tree.directories cd with
    | none => some ("", g)
    | some dirOrig =>
      match smFind? tree.sub_members cd with
      | none => none
      | some dir_map =>
        match extFirst dir_map (String.mk cn') exts with
        | some nameOrig =>
          some (MakePath (strCat tree.directory_path (strCat "/" dirOrig)) nameOrig, g)
        | none => some ("", g)

/-- The narrowing block of `rtp_lookup` (lines 178-209), run while
`game_rtp.size() != 1`: ask `RTP::LookupAnyToRtp`, erase the first
occurrence of the Don Miguel add-on variant from the candidate vector, and
when candidates remain either seed `game_rtp` with them or erase from
`game_rtp` every variant that is not among them; when the set reaches
exactly one element, log the "Game uses RTP" debug line. -/
def rtpNarrow (ctx : Ctx) (g : Globals) (dir name : String) : Globals :=
  if g.rtp.game_rtp.length ≠ 1 then
    let candidates := (ctx.oracleAny dir name ctx.version).erase RTPType.RPG2000_DonMiguelAddon
    if candidates ≠ [] then
      let newSet := if g.rtp.game_rtp = [] then candidates
                    else g.rtp.game_rtp.filter (fun t => candidates.contains t)
      match newSet with
      | [t] => addLog (setGameRtp g newSet) (LogMsg.debugGameUsesRtp t)
      | _ => setGameRtp g newSet
    else g
  else g

mutual

/-- The tree-level `FindFile(tree, dir, name, exts, translate)` of the
anonymous namespace (lines 87-160).  Returns the found path (or `""`)
together with the globals, which the path-correction branch can change
through its re-entry into the top-level lookup. -/
def FindFile (ctx : Ctx) : Nat → Globals → DirectoryTree → String → String → List String →
    Bool → Option (String × Globals)
  | 0, _, _, _, _, _, _ => none
  | fuel + 1, g, tree, dir, name, exts, translate =>
    if translate ∧ ctx.translationId = "" then some ("", g)
    else
      let corrected_dir := ctx.norm (if translate then ctx.translationDir else dir)
      let corrected_name := ctx.norm
        (if translate then MakePath (MakePath ctx.translationId dir) name else name)
      let combined_path := MakePath corrected_dir corrected_name
      let canon := MakeCanonical ctx.escape_symbol combined_path 1
      if combined_path ≠ canon then
        match splitSlash canon.toList with
        | none => fdExtsLoop ctx fuel g tree canon exts
        | some (pre, post) => findInTree ctx g tree (String.mk pre) (String.mk post) exts
      else findInTree ctx g tree corrected_dir corrected_name exts

/-- The extension loop of the path-correction branch (lines 118-123): tries
`FindDefault(tree, canon + ext)` for each extension, first non-empty result
wins. -/
def fdExtsLoop (ctx : Ctx) : Nat → Globals → DirectoryTree → String → List String →
    Option (String × Globals)
  | 0, _, _, _, _ => none
  | fuel + 1, g, tree, canon, exts =>
    match exts with
    | [] => some ("", g)
    | e :: es =>
      match FindDefaultTree ctx fuel g tree (strCat canon e) with
      | none => none
      | some (r, g') => if r ≠ "" then some (r, g') else fdExtsLoop ctx fuel g' tree canon es

/-- `FileFinder::FindDefault(tree, name)` (lines 726-747): a name containing
a directory is re-dispatched through the top-level `FindDefault(dir, name)`;
otherwise the tree's root file map is consulted under the normalized name. -/
def FindDefaultTree (ctx : Ctx) : Nat → Globals → DirectoryTree → String →
    Option (String × Globals)
  | 0, _, _, _ => none
  | fuel + 1, g, tree, name =>
    match SplitPath ctx.escape_symbol name with
    | c0 :: c1 :: rest => FindDefaultDir ctx fuel g c0 (joinPath (c1 :: rest))
    | _ =>
      match mapFind? tree.files (ctx.norm name) with
      | some orig => some (MakePath tree.directory_path orig, g)
      | none => some ("", g)

/-- `FileFinder::FindDefault(dir, name)` (lines 711-714): the top-level
`FindFile` with the extension list `{"", NULL}`. -/
def FindDefaultDir (ctx : Ctx) : Nat → Globals → String → String → Option (String × Globals)
  | 0, _, _, _ => none
  | fuel + 1, g, dir, name => FindFileTop ctx fuel g dir name [""] false

/-- The top-level `FindFile(dir, name, exts, tryTranslate)` of the anonymous
namespace (lines 236-278): translation overlay, then the game tree, then —
unless RTP is disabled — `rtp_lookup` plus the RTP warning block, and a
debug diagnostic when everything missed.  A null `game_directory_tree` is
dereferenced, which the model reports as `none`.  The C++ passes the local
`bool is_rtp_asset` to `rtp_lookup` *uninitialized*; it is modelled as
`false` here, which is sound because `rtp_lookup`'s observable outcome does
not depend on the initial value (`rtp_lookup_flag0_irrelevant` below). -/
def FindFileTop (ctx : Ctx) : Nat → Globals → String → String → List String → Bool →
    Option (String × Globals)
  | 0, _, _, _, _, _ => none
  | fuel + 1, g, dir, name, exts, tryTranslate =>
    match g.tree with
    | none => none
    | some T =>
      match (if tryTranslate then FindFile ctx fuel g T dir name exts true else some ("", g)) with
      | none => none
      | some (r1, g1) =>
        if r1 ≠ "" then some (r1, g1)
        else
          match FindFile ctx fuel g1 T dir name exts false with
          | none => none
          | some (r2, g2) =>
            if r2 ≠ "" then some (r2, g2)
            else
              if g2.rtp.disable_rtp then some ("", addLog g2 (LogMsg.debugCannotFind dir name))
              else
                match rtp_lookup ctx fuel g2 (ctx.norm dir) (ctx.norm name) exts false with
                | none => none
                | some (ret, fl, g3) =>
                  let lcase := ctx.norm dir
                  let isAudio := lcase = "music" ∨ lcase = "sound"
                  let g4 :=
                    if fl then
                      (if ret ≠ "" ∧ g3.rtp.game_has_full_package_flag = true ∧
                          g3.rtp.warning_broken_rtp_game_shown = false ∧ ¬ isAudio then
                        addLog (setWarnShown g3) LogMsg.warnBrokenRtpGame
                      else if ret = "" ∧ g3.rtp.game_has_full_package_flag = false ∧ ¬ isAudio then
                        addLog g3 (LogMsg.warnCannotFindRtp g3.rtp.search_paths.isEmpty dir name)
                      else g3)
                    else g3
                  if ret = "" then some (ret, addLog g4 (LogMsg.debugCannotFind dir name))
                  else some (ret, g4)

/-- `rtp_lookup(dir, name, exts, is_rtp_asset)` (lines 163-234).  `flag0` is
the value of the caller's `is_rtp_asset` variable on entry; the returned
`Bool` is its value on return.  First the narrowing block (run while
`game_rtp.size() != 1`): ask the oracle, drop the first occurrence of the
Don Miguel add-on variant, and when candidates remain either seed
`game_rtp` or intersect it, logging the "Game uses RTP" debug line when the
set reaches exactly one element.  Then: empty `game_rtp` falls back to
`normal_search`; otherwise the cross-variant search over
`detected_rtp × game_rtp` runs, itself falling back to `normal_search`. -/
def rtp_lookup (ctx : Ctx) : Nat → Globals → String → String → List String → Bool →
    Option (String × Bool × Globals)
  | 0, _, _, _, _, _ => none
  | fuel + 1, g, dir, name, exts, flag0 =>
    let g1 := rtpNarrow ctx g dir name
    if g1.rtp.game_rtp = [] then
      match normalSearch ctx fuel g1 g1.rtp.search_paths dir name exts with
      | none => none
      | some (r, g2) => some (r, false, g2)
    else
      match crossOuter ctx fuel g1 g1.rtp.detected_rtp dir name exts flag0 with
      | none => none
      | some (some r, fl, g2) => some (r, fl, g2)
      | some (none, _, g2) =>
        match normalSearch ctx fuel g2 g2.rtp.search_paths dir name exts with
        | none => none
        | some (r, g3) => some (r, false, g3)

/-- The `normal_search` lambda of `rtp_lookup` (lines 166-175): sets
`is_rtp_asset = false` (the caller pairs this result with `false`) and tries
the tree-level `FindFile` on each RTP search path in discovery order. -/
def normalSearch (ctx : Ctx) : Nat → Globals → List DirectoryTree → String → String →
    List String → Option (String × Globals)
  | 0, _, _, _, _, _ => none
  | fuel + 1, g, paths, dir, name, exts =>
    match paths with
    | [] => some ("", g)
    | p :: ps =>
      match FindFile ctx fuel g p dir name exts false with
      | none => none
      | some (r, g') =>
        if r ≠ "" then some (r, g') else normalSearch ctx fuel g' ps dir name exts

/-- The outer loop of `rtp_lookup`'s cross-variant search (line 219), over
the immutable `detected_rtp` list; each iteration re-reads the current
`game_rtp` as the inner range.  Result `(none, flag, g)` means the loop fell
through without a hit (control continues to `normal_search`). -/
def crossOuter (ctx : Ctx) : Nat → Globals → List RtpHitInfo → String → String → List String →
    Bool → Option (Option String × Bool × Globals)
  | 0, _, _, _, _, _, _ => none
  | fuel + 1, g, hits, dir, name, exts, flag =>
    match hits with
    | [] => some (none, flag, g)
    | h :: hs =>
      match crossInner ctx fuel g h g.rtp.game_rtp g.rtp.game_rtp dir name exts flag with
      | none => none
      | some (some r, fl, g') => some (some r, fl, g')
      | some (none, fl, g') => crossOuter ctx fuel g' hs dir name exts fl

/-- The inner loop of the cross-variant search (lines 220-229), over the
`game_rtp` range captured at the outer iteration (`snap`).  The oracle's
out-parameter write updates `flag`; a non-empty translated entry is looked
up in the detected RTP's tree, and a hit returns it with `is_rtp_asset =
true`.  A nested lookup that mutates `game_rtp` while this range-for is
iterating it invalidates the C++ iterator — modelled as `none`. -/
def crossInner (ctx : Ctx) : Nat → Globals → RtpHitInfo → List RTPType → List RTPType →
    String → String → List String → Bool → Option (Option String × Bool × Globals)
  | 0, _, _, _, _, _, _, _, _ => none
  | fuel + 1, g, h, rest, snap, dir, name, exts, flag =>
    match rest with
    | [] => some (none, flag, g)
    | t :: ts =>
      let res := ctx.oracleRtpToRtp dir name t h.rtype
      let flag' := res.2.getD flag
      if res.1 ≠ "" then
        match FindFile ctx fuel g h.tree dir res.1 exts false with
        | none => none
        | some (ret, g') =>
          if g'.rtp.game_rtp ≠ snap then none
          else if ret ≠ "" then some (some ret, true, g')
          else crossInner ctx fuel g' h ts snap dir name exts flag'
      else crossInner ctx fuel g h ts snap dir name exts flag'

end

/-- `FileFinder::Mode`. -/
inductive Mode
  | FILES
  | DIRECTORIES
  | ALL
  | RECURSIVE
deriving DecidableEq, Repr

/-- `FileFinder::Directory`: the raw result of one directory scan. -/
structure Directory where
  base : String
  files : List (String × String)
  directories : List (String × String)
deriving DecidableEq, Repr

/-- The platform file primitives (external `Platform::File` /
`Platform::Directory`; spec §6 `ListDirectory`): existence and
directory-ness of a path, and the entry listing of a directory —
`none` when opening the directory fails, otherwise the entries in read
order, each with its name and whether it is a directory (folding the
`has_fast_dir_stat` fast/slow stat paths, which compute the same
predicate). -/
structure FS where
  fexists : String → Bool
  isDir : String → Bool
  entries : String → Option (List (String × Bool))

mutual

/-- `FileFinder::GetDirectoryMembers(path, m, parent)` (lines 826-895).  The
two entry `assert`s (path exists and is a directory) fail abnormally
(`none`) when violated; a directory that cannot be opened yields an empty
result plus a debug line; otherwise the entries are scanned in order.
Returns the scan result together with the diagnostics it logged. -/
def GetDirectoryMembers (ctx : Ctx) (fs : FS) : Nat → String → Mode → String →
    Option (Directory × List LogMsg)
  | 0, _, _, _ => none
  | fuel + 1, path, m, parent =>
    if fs.fexists path = true ∧ fs.isDir path = true then
      match fs.entries path with
      | none => some (⟨path, [], []⟩, [LogMsg.debugErrorOpeningDir path])
      | some l => scanEntries ctx fs fuel path m parent l ⟨path, [], []⟩ []
    else none

/-- The `while (dir.Read())` loop of `GetDirectoryMembers`: skips `.` and
`..`, applies the mode filter, recurses on subdirectories in `RECURSIVE`
mode (merging the nested result with keep-existing `insert` semantics), and
otherwise indexes the entry under its normalized name — warning (twice) on a
duplicate normalized *directory* key before overwriting it. -/
def scanEntries (ctx : Ctx) (fs : FS) : Nat → String → Mode → String →
    List (String × Bool) → Directory → List LogMsg → Option (Directory × List LogMsg)
  | 0, _, _, _, _, _, _ => none
  | fuel + 1, path, m, parent, entries, acc, logs =>
    match entries with
    | [] => some (acc, logs)
    | (name, isDirE) :: rest =>
      if name = "." ∨ name = ".." then scanEntries ctx fs fuel path m parent rest acc logs
      else
        match m with
        | Mode.FILES =>
          if isDirE then scanEntries ctx fs fuel path m parent rest acc logs
          else scanEntries ctx fs fuel path m parent rest
            ⟨acc.base, mapInsert acc.files (ctx.norm name) name, acc.directories⟩ logs
        | Mode.DIRECTORIES =>
          if isDirE then
            let nn := ctx.norm name
            let logs' := if (mapFind? acc.directories nn).isSome then
                logs ++ [LogMsg.warnFolderTwice name, LogMsg.warnFolderMergeHint]
              else logs
            scanEntries ctx fs fuel path m parent rest
              ⟨acc.base, acc.files, mapInsert acc.directories nn name⟩ logs'
          else scanEntries ctx fs fuel path m parent rest acc logs
        | Mode.ALL =>
          if isDirE then
            let nn := ctx.norm name
            let logs' := if (mapFind? acc.directories nn).isSome then
                logs ++ [LogMsg.warnFolderTwice name, LogMsg.warnFolderMergeHint]
              else logs
            scanEntries ctx fs fuel path m parent rest
              ⟨acc.base, acc.files, mapInsert acc.directories nn name⟩ logs'
          else scanEntries ctx fs fuel path m parent rest
            ⟨acc.base, mapInsert acc.files (ctx.norm name) name, acc.directories⟩ logs
        | Mode.RECURSIVE =>
          if isDirE then
            match GetDirectoryMembers ctx fs fuel (MakePath path name) Mode.RECURSIVE
                (MakePath parent name) with
            | none => none
            | some (rdir, rlogs) =>
              scanEntries ctx fs fuel path m parent rest
                ⟨acc.base, mapMergeKeep acc.files rdir.files,
                  mapMergeKeep acc.directories rdir.directories⟩ (logs ++ rlogs)
          else scanEntries ctx fs fuel path m parent rest
            ⟨acc.base,
              mapInsert acc.files (ctx.norm (MakePath parent name)) (MakePath parent name),
              acc.directories⟩ logs

end

/-- The `sub_members` population loop of `CreateDirectoryTree` (lines
328-332): one nested `RECURSIVE` scan per discovered subdirectory, whose
file map is stored under the subdirectory's normalized key. -/
def buildSubMembers (ctx : Ctx) (fs : FS) (fuel : Nat) (p : String) :
    List (String × String) → List (String × List (String × String)) → List LogMsg →
    Option (List (String × List (String × String)) × List LogMsg)
  | [], sm, logs => some (sm, logs)
  | (k, orig) :: rest, sm, logs =>
    match GetDirectoryMembers ctx fs fuel (MakePath p orig) Mode.RECURSIVE "" with
    | none => none
    | some (rdir, rlogs) => buildSubMembers ctx fs fuel p rest (smInsert sm k rdir.files) (logs ++ rlogs)

/-- `FileFinder::CreateDirectoryTree(p, mode)` (lines 309-334).  A path that
does not exist or is not a directory yields the null tree (`some (none, _)`
— an ordinary absent value, not an abnormal outcome); `RECURSIVE` is turned
into a flat `ALL` scan plus one nested recursive scan per subdirectory. -/
def CreateDirectoryTree (ctx : Ctx) (fs : FS) (fuel : Nat) (p : String) (mode : Mode) :
    Option (Option DirectoryTree × List LogMsg) :=
  if fs.fexists p = true ∧ fs.isDir p = true then
    let mrec : Mode × Bool := match mode with
      | Mode.RECURSIVE => (Mode.ALL, true)
      | m => (m, false)
    match GetDirectoryMembers ctx fs fuel p mrec.1 "" with
    | none => none
    | some (mem, logs) =>
      if mrec.2 then
        match buildSubMembers ctx fs fuel p mem.directories [] logs with
        | none => none
        | some (sm, logs') => some (some ⟨p, mem.files, mem.directories, sm⟩, logs')
      else some (some ⟨p, mem.files, mem.directories, []⟩, logs)
  else some (none, [])

/-- Runs a sequence of `rtp_lookup` calls (each request: directory, name,
extensions, initial out-flag value), threading the globals. -/
def runRtpSession (ctx : Ctx) (fuel : Nat) (g : Globals) :
    List (String × String × List String × Bool) → Option Globals
  | [] => some g
  | (d, n, e, b) :: rest =>
    match rtp_lookup ctx fuel g d n e b with
    | none => none
    | some (_, _, g') => runRtpSession ctx fuel g' rest

/-- `game_rtp` at the end of a sequence of `rtp_lookup` calls. -/
def sessionGameRtp (ctx : Ctx) (fuel : Nat) (g : Globals)
    (reqs : List (String × String × List String × Bool)) : Option (List RTPType) :=
  (runRtpSession ctx fuel g reqs).map (fun g' => g'.rtp.game_rtp)

/-- Oracle of the two-asset narrowing scenario: asset `d/a` maps to the
variants `{V1, V2}`, asset `d/b` to `{V2, V3}`, the add-on to neither. -/
def ctxC1 : Ctx :=
  ⟨fun s => s, "\\", "", "", 2000,
    fun d n _ =>
      if d = "d" ∧ n = "a" then
        [RTPType.RPG2000_OfficialJapanese, RTPType.RPG2000_OfficialEnglish]
      else if d = "d" ∧ n = "b" then
        [RTPType.RPG2000_OfficialEnglish, RTPType.RPG2000_DonMiguelEnglish]
      else [],
    fun _ _ _ _ => ("", none)⟩

/-- Session start: `rtp_state` freshly reset, no search paths, no detected
RTP, empty `game_rtp`. -/
def gSess : Globals := ⟨none, ⟨[], false, false, false, [], []⟩, []⟩

/-- C1: RTP narrowing is order-independent on the spec's two-asset scenario:
with an oracle mapping asset `A` to `{V1, V2}` and asset `B` to `{V2, V3}`
(the spurious add-on in neither), calling `rtp_lookup` for `A` then `B`
leaves `game_rtp = {V2}` (the resolved one-element state), and calling `B`
then `A` leaves the same final set. -/
theorem c1_rtp_narrowing_order_independent :
    sessionGameRtp ctxC1 4 gSess [("d", "a", [""], false), ("d", "b", [""], false)] =
      some [RTPType.RPG2000_OfficialEnglish] ∧
    sessionGameRtp ctxC1 4 gSess [("d", "b", [""], false), ("d", "a", [""], false)] =
      some [RTPType.RPG2000_OfficialEnglish] := by
  decide

/-- Oracle of the emptied-intersection scenario: `d/a ↦ {V1, V2}`,
`d/b ↦ {V3}` (disjoint from the former), `d/c ↦ {V4}`. -/
def ctxC2 : Ctx :=
  ⟨fun s => s, "\\", "", "", 2000,
    fun d n _ =>
      if d = "d" ∧ n = "a" then
        [RTPType.RPG2000_OfficialJapanese, RTPType.RPG2000_OfficialEnglish]
      else if d = "d" ∧ n = "b" then [RTPType.RPG2000_DonMiguelEnglish]
      else if d = "d" ∧ n = "c" then [RTPType.RPG2003_OfficialJapanese]
      else [],
    fun _ _ _ _ => ("", none)⟩

/-- C2 counterexample: after the first lookup seeds `game_rtp = {V1, V2}`
and a disjoint second lookup empties it, a third lookup with candidate set
`{V4}` re-seeds `game_rtp = {V4}`, which is not a subset of the empty set it
held before that lookup — a later lookup did add an element after the set
had been narrowed below its initial population. -/
theorem c2_counterexample :
    sessionGameRtp ctxC2 4 gSess [("d", "a", [""], false)] =
      some [RTPType.RPG2000_OfficialJapanese, RTPType.RPG2000_OfficialEnglish] ∧
    sessionGameRtp ctxC2 4 gSess [("d", "a", [""], false), ("d", "b", [""], false)] =
      some [] ∧
    sessionGameRtp ctxC2 4 gSess
        [("d", "a", [""], false), ("d", "b", [""], false), ("d", "c", [""], false)] =
      some [RTPType.RPG2003_OfficialJapanese] ∧
    ¬ (∀ t ∈ [RTPType.RPG2003_OfficialJapanese], t ∈ ([] : List RTPType)) := by
  decide

/-- C6: `MakeCanonical` folds the tokenized segments left-to-right — `.` and
empty segments dropped, `..` popping the last retained segment when one
exists, otherwise consuming one unit of `initial_deepness`, and once that is
exhausted a further `..` only produces a traversal diagnostic and no further
ascension.  Concretely: `"a/b/../c"` canonicalizes to `"a/c"` for every
`initial_deepness`; `"../x"` at depth 1 gives `"x"` with no diagnostic; and
`"../../x"` at depth 1 gives `"x"` with exactly one traversal diagnostic. -/
theorem c6_make_canonical_semantics :
    ∀ d : Int,
      MakeCanonical "\\" "a/b/../c" d = "a/c" ∧
      MakeCanonical "\\" "../x" 1 = "x" ∧
      canonDiagCount "\\" "../x" 1 = 0 ∧
      MakeCanonical "\\" "../../x" 1 = "x" ∧
      canonDiagCount "\\" "../../x" 1 = 1 := by
  intro d
  exact ⟨rfl, by decide, by decide, by decide, by decide⟩

/-- A plain context: identity normalizer, backslash escape symbol, no active
translation, empty oracle tables. -/
def ctxPlain : Ctx := ⟨fun s => s, "\\", "", "", 2000, fun _ _ _ => [], fun _ _ _ _ => ("", none)⟩

/-- A lower-casing normalizer (a concrete stand-in for
`lcf::ReaderUtil::Normalize`). -/
def normLower (s : String) : String := String.mk (s.toList.map Char.toLower)

/-- Context with the lower-casing normalizer and empty oracle tables. -/
def ctxLower : Ctx := ⟨normLower, "\\", "", "", 2000, fun _ _ _ => [], fun _ _ _ _ => ("", none)⟩

/-- A filesystem holding one directory `g` with two file entries whose
names differ only in case. -/
def fsC8 : FS :=
  ⟨fun p => p = "g", fun p => p = "g",
    fun p => if p = "g" then some [("A.png", false), ("a.PNG", false)] else none⟩

/-- C8 counterexample: two distinct on-disk *file* entries of one directory
(`A.png` and `a.PNG`) normalize to the same index key `a.png`, yet the scan
logs no diagnostic at all and silently keeps only the later entry — the
collision warning exists for directory entries only. -/
theorem c8_counterexample :
    GetDirectoryMembers ctxLower fsC8 5 "g" Mode.ALL "" =
      some (⟨"g", [("a.png", "a.PNG")], []⟩, []) := by
  decide

/-- C8 as amended: when two distinct entries of one directory normalize to
the same key, the later-scanned entry overwrites the mapping in both cases,
but only a *directory* collision is detected and reported (as a two-line
diagnostic warning, not an error); a *file* collision is silent. -/
theorem c8_collision_last_write_wins (ctx : Ctx) (fs : FS) (fuel : Nat) (path n1 n2 : String)
    (hex : fs.fexists path = true) (hdir : fs.isDir path = true)
    (hnorm : ctx.norm n1 = ctx.norm n2)
    (h1a : n1 ≠ ".") (h1b : n1 ≠ "..") (h2a : n2 ≠ ".") (h2b : n2 ≠ "..") :
    (fs.entries path = some [(n1, true), (n2, true)] →
      GetDirectoryMembers ctx fs (fuel + 4) path Mode.ALL "" =
        some (⟨path, [], [(ctx.norm n2, n2)]⟩,
          [LogMsg.warnFolderTwice n2, LogMsg.warnFolderMergeHint])) ∧
    (fs.entries path = some [(n1, false), (n2, false)] →
      GetDirectoryMembers ctx fs (fuel + 4) path Mode.ALL "" =
        some (⟨path, [(ctx.norm n2, n2)], []⟩, [])) := by
  constructor <;> intro hent <;>
    simp [GetDirectoryMembers, scanEntries, mapFind?, mapInsert, hex, hdir, hent, hnorm,
      h1a, h1b, h2a, h2b]

/-- Filesystem with one directory `g` holding two directory entries whose
names differ only in case. -/
def fsC8d : FS :=
  ⟨fun p => p = "g" || p = "g/A" || p = "g/a",
    fun p => p = "g" || p = "g/A" || p = "g/a",
    fun p => if p = "g" then some [("A", true), ("a", true)] else some []⟩

/-- Witness for the amended C8 at a concrete input: colliding directory
entries `A` and `a` produce the two-line warning and the mapping keeps the
later entry. -/
theorem c8_collision_witness :
    GetDirectoryMembers ctxLower fsC8d (0 + 4) "g" Mode.ALL "" =
      some (⟨"g", [], [("a", "a")]⟩,
        [LogMsg.warnFolderTwice "a", LogMsg.warnFolderMergeHint]) :=
  (c8_collision_last_write_wins ctxLower fsC8d 0 "g" "A" "a" (by decide) (by decide)
    (by decide) (by decide) (by decide) (by decide) (by decide)).1 (by decide)

/-- C9 counterexample: a tree whose `directories` map contains the key `d`
that is absent from its `sub_members` map makes the tree-level `FindFile`
dereference `tree.sub_members.find(corrected_dir)` past the end — an
invalid iterator dereference, an abnormal outcome rather than an empty
result. -/
theorem c9_counterexample :
    FindFile ctxPlain 3 gSess ⟨"B", [], [("d", "D")], []⟩ "d" "n" [""] false = none := by
  decide

/-- Every hit exit of the cross-variant inner loop carries `is_rtp_asset =
true` and a non-empty path. -/
theorem crossInner_hit_flag (ctx : Ctx) :
    ∀ (f : Nat) (g : Globals) (h : RtpHitInfo) (rest snap : List RTPType) (d n : String)
      (e : List String) (fl : Bool) (r : String) (fl' : Bool) (g' : Globals),
      crossInner ctx f g h rest snap d n e fl = some (some r, fl', g') →
      fl' = true ∧ r ≠ "" := by
  intro f
  induction f with
  | zero => intro g h rest snap d n e fl r fl' g' hcall; simp [crossInner] at hcall
  | succ f ih =>
    intro g h rest snap d n e fl r fl' g' hcall
    match rest with
    | [] => simp [crossInner] at hcall
    | t :: ts =>
      simp only [crossInner] at hcall
      split at hcall
      · split at hcall
        · exact absurd hcall (by simp)
        · split at hcall
          · exact absurd hcall (by simp)
          · split at hcall
            · rename_i hne
              cases hcall
              exact ⟨rfl, hne⟩
            · exact ih _ _ _ _ _ _ _ _ _ _ _ hcall
      · exact ih _ _ _ _ _ _ _ _ _ _ _ hcall

/-- Every hit exit of the cross-variant outer loop carries `is_rtp_asset =
true` and a non-empty path. -/
theorem crossOuter_hit_flag (ctx : Ctx) :
    ∀ (f : Nat) (g : Globals) (hits : List RtpHitInfo) (d n : String) (e : List String)
      (fl : Bool) (r : String) (fl' : Bool) (g' : Globals),
      crossOuter ctx f g hits d n e fl = some (some r, fl', g') →
      fl' = true ∧ r ≠ "" := by
  intro f
  induction f with
  | zero => intro g hits d n e fl r fl' g' hcall; simp [crossOuter] at hcall
  | succ f ih =>
    intro g hits d n e fl r fl' g' hcall
    match hits with
    | [] => simp [crossOuter] at hcall
    | h :: hs =>
      simp only [crossOuter] at hcall
      split at hcall
      · exact absurd hcall (by simp)
      · rename_i heq
        cases hcall
        exact crossInner_hit_flag ctx f _ _ _ _ _ _ _ _ _ _ _ heq
      · exact ih _ _ _ _ _ _ _ _ _ hcall

/-- The flag `rtp_lookup` returns through its `is_rtp_asset` out parameter
is `true` only together with a non-empty result: every control path either
exits the cross-variant loop at a hit (flag set to `true` beside a checked
non-empty path) or falls through `normal_search`, which clears the flag. -/
theorem rtp_lookup_flag_spec (ctx : Ctx) (f : Nat) (g : Globals) (d n : String)
    (e : List String) (b : Bool) (r : String) (fl : Bool) (g' : Globals)
    (hcall : rtp_lookup ctx f g d n e b = some (r, fl, g')) :
    fl = true → r ≠ "" := by
  match f with
  | 0 => simp [rtp_lookup] at hcall
  | f + 1 =>
    simp only [rtp_lookup] at hcall
    split at hcall
    · split at hcall
      · exact absurd hcall (by simp)
      · cases hcall; intro h; cases h
    · split at hcall
      · exact absurd hcall (by simp)
      · rename_i heq
        cases hcall
        intro _
        exact (crossOuter_hit_flag ctx f _ _ _ _ _ _ _ _ _ heq).2
      · split at hcall
        · exact absurd hcall (by simp)
        · cases hcall; intro h; cases h

/-- Normalizes the dead flag of a fell-through cross-variant loop result:
that flag's only consumer (`rtp_lookup`) discards it. -/
def deadFlagNorm (x : Option (Option String × Bool × Globals)) :
    Option (Option String × Bool × Globals) :=
  match x with
  | some (none, _, g) => some (none, false, g)
  | y => y

/-- The inner cross-variant loop's observable outcome does not depend on the
incoming flag value: the flag is overwritten before every exit that exposes
it. -/
theorem crossInner_flag0 (ctx : Ctx) :
    ∀ (f : Nat) (g : Globals) (h : RtpHitInfo) (rest snap : List RTPType) (d n : String)
      (e : List String) (b₁ b₂ : Bool),
      deadFlagNorm (crossInner ctx f g h rest snap d n e b₁) =
        deadFlagNorm (crossInner ctx f g h rest snap d n e b₂) := by
  intro f
  induction f with
  | zero => intro g h rest snap d n e b₁ b₂; rfl
  | succ f ih =>
    intro g h rest snap d n e b₁ b₂
    match rest with
    | [] => rfl
    | t :: ts =>
      simp only [crossInner]
      split
      · split
        · rfl
        · split
          · rfl
          · split
            · rfl
            · exact ih _ _ _ _ _ _ _ _ _
      · exact ih _ _ _ _ _ _ _ _ _

/-- The outer cross-variant loop's observable outcome does not depend on the
incoming flag value. -/
theorem crossOuter_flag0 (ctx : Ctx) :
    ∀ (f : Nat) (g : Globals) (hits : List RtpHitInfo) (d n : String) (e : List String)
      (b₁ b₂ : Bool),
      deadFlagNorm (crossOuter ctx f g hits d n e b₁) =
        deadFlagNorm (crossOuter ctx f g hits d n e b₂) := by
  intro f
  induction f with
  | zero => intro g hits d n e b₁ b₂; rfl
  | succ f ih =>
    intro g hits d n e b₁ b₂
    match hits with
    | [] => rfl
    | h :: hs =>
      simp only [crossOuter]
      have hcc := crossInner_flag0 ctx f g h g.rtp.game_rtp g.rtp.game_rtp d n e b₁ b₂
      cases hc1 : crossInner ctx f g h g.rtp.game_rtp g.rtp.game_rtp d n e b₁ with
      | none =>
        cases hc2 : crossInner ctx f g h g.rtp.game_rtp g.rtp.game_rtp d n e b₂ with
        | none => rfl
        | some v => rw [hc1, hc2] at hcc; cases v with
          | mk o rest' => cases o <;> simp [deadFlagNorm] at hcc
      | some v =>
        cases hc2 : crossInner ctx f g h g.rtp.game_rtp g.rtp.game_rtp d n e b₂ with
        | none =>
          rw [hc1, hc2] at hcc
          cases v with
          | mk o rest' => cases o <;> simp [deadFlagNorm] at hcc
        | some w =>
          rw [hc1, hc2] at hcc
          obtain ⟨o1, f1, g1⟩ := v
          obtain ⟨o2, f2, g2⟩ := w
          cases o1 with
          | none =>
            cases o2 with
            | none =>
              simp only [deadFlagNorm, Option.some.injEq, Prod.mk.injEq, true_and] at hcc
              subst hcc
              exact ih _ _ _ _ _ _ _
            | some r2 => simp [deadFlagNorm] at hcc
          | some r1 =>
            cases o2 with
            | none => simp [deadFlagNorm] at hcc
            | some r2 =>
              simp only [deadFlagNorm, Option.some.injEq, Prod.mk.injEq] at hcc
              obtain ⟨ho, hf, hg⟩ := hcc
              subst ho; subst hf; subst hg
              rfl

/-- `rtp_lookup`'s result does not depend on the initial value of the
`is_rtp_asset` out parameter (which the C++ caller leaves uninitialized):
every return path overwrites it. -/
theorem rtp_lookup_flag0_irrelevant (ctx : Ctx) (f : Nat) (g : Globals) (d n : String)
    (e : List String) (b₁ b₂ : Bool) :
    rtp_lookup ctx f g d n e b₁ = rtp_lookup ctx f g d n e b₂ := by
  match f with
  | 0 => rfl
  | f + 1 =>
    simp only [rtp_lookup]
    split
    · rfl
    · have hcc := crossOuter_flag0 ctx f (rtpNarrow ctx g d n)
        (rtpNarrow ctx g d n).rtp.detected_rtp d n e b₁ b₂
      cases hc1 : crossOuter ctx f (rtpNarrow ctx g d n) (rtpNarrow ctx g d n).rtp.detected_rtp
          d n e b₁ with
      | none =>
        cases hc2 : crossOuter ctx f (rtpNarrow ctx g d n) (rtpNarrow ctx g d n).rtp.detected_rtp
            d n e b₂ with
        | none => rfl
        | some v =>
          rw [hc1, hc2] at hcc
          obtain ⟨o, fo, go⟩ := v
          cases o <;> simp [deadFlagNorm] at hcc
      | some v =>
        cases hc2 : crossOuter ctx f (rtpNarrow ctx g d n) (rtpNarrow ctx g d n).rtp.detected_rtp
            d n e b₂ with
        | none =>
          rw [hc1, hc2] at hcc
          obtain ⟨o, fo, go⟩ := v
          cases o <;> simp [deadFlagNorm] at hcc
        | some w =>
          rw [hc1, hc2] at hcc
          obtain ⟨o1, f1, g1⟩ := v
          obtain ⟨o2, f2, g2⟩ := w
          cases o1 with
          | none =>
            cases o2 with
            | none =>
              simp only [deadFlagNorm, Option.some.injEq, Prod.mk.injEq, true_and] at hcc
              subst hcc
              rfl
            | some r2 => simp [deadFlagNorm] at hcc
          | some r1 =>
            cases o2 with
            | none => simp [deadFlagNorm] at hcc
            | some r2 =>
              simp only [deadFlagNorm, Option.some.injEq, Prod.mk.injEq] at hcc
              obtain ⟨ho, hf, hg⟩ := hcc
              subst ho; subst hf; subst hg
              rfl

/-- C10: implicit postcondition of `rtp_lookup` — the `is_rtp_asset` out
flag is `true` only when the returned path is non-empty, and whenever the
returned path is empty the flag is `false`: the caller is never told that an
asset is RTP-owned yet missing everywhere. -/
theorem c10_rtp_flag_only_when_found (ctx : Ctx) (f : Nat) (g : Globals) (d n : String)
    (e : List String) (b : Bool) (r : String) (fl : Bool) (g' : Globals)
    (hcall : rtp_lookup ctx f g d n e b = some (r, fl, g')) :
    (fl = true → r ≠ "") ∧ (r = "" → fl = false) := by
  have h := rtp_lookup_flag_spec ctx f g d n e b r fl g' hcall
  refine ⟨h, fun hr => ?_⟩
  cases fl with
  | false => rfl
  | true => exact absurd hr (h rfl)

/-- Witness for C10 at a concrete input: a lookup that misses everywhere
returns the empty path and, by the theorem, the `false` flag. -/
theorem c10_rtp_flag_witness :
    rtp_lookup ctxPlain 2 gSess "d" "n" [""] false = some ("", false, gSess) ∧
    ("" = "" → false = false) :=
  ⟨by decide,
    (c10_rtp_flag_only_when_found ctxPlain 2 gSess "d" "n" [""] false "" false gSess
      (by decide)).2⟩

/-- `setGameRtp` changes only `game_rtp`. -/
theorem setGameRtp_game_rtp (g : Globals) (s : List RTPType) :
    (setGameRtp g s).rtp.game_rtp = s := rfl

/-- `addLog` leaves `rtp_state` unchanged. -/
theorem addLog_rtp (g : Globals) (m : LogMsg) : (addLog g m).rtp = g.rtp := rfl

/-- `setWarnShown` leaves `game_rtp` unchanged. -/
theorem setWarnShown_game_rtp (g : Globals) :
    (setWarnShown g).rtp.game_rtp = g.rtp.game_rtp := rfl

/-- The spurious add-on variant is not an element of `game_rtp`. -/
def addonFree (g : Globals) : Prop :=
  RTPType.RPG2000_DonMiguelAddon ∉ g.rtp.game_rtp

/-- The candidate vector used by the narrowing block is add-on free as long
as the oracle lists the add-on at most once (set semantics of the oracle's
candidate sets). -/
theorem candidates_addonFree (l : List RTPType)
    (h : l.count RTPType.RPG2000_DonMiguelAddon ≤ 1) :
    RTPType.RPG2000_DonMiguelAddon ∉ l.erase RTPType.RPG2000_DonMiguelAddon := by
  rw [← List.count_eq_zero, List.count_erase_self]
  omega

/-- The effect of the narrowing block on `game_rtp` alone, as a pure
function of the previous set. -/
def narrowSet (ctx : Ctx) (s : List RTPType) (d n : String) : List RTPType :=
  if s.length ≠ 1 then
    if (ctx.oracleAny d n ctx.version).erase RTPType.RPG2000_DonMiguelAddon ≠ [] then
      (if s = [] then (ctx.oracleAny d n ctx.version).erase RTPType.RPG2000_DonMiguelAddon
       else s.filter (fun t =>
         ((ctx.oracleAny d n ctx.version).erase RTPType.RPG2000_DonMiguelAddon).contains t))
    else s
  else s

/-- `rtpNarrow` updates `game_rtp` exactly to `narrowSet` of its previous
value (the rest of the narrowing block only logs). -/
theorem rtpNarrow_game_rtp (ctx : Ctx) (g : Globals) (d n : String) :
    (rtpNarrow ctx g d n).rtp.game_rtp = narrowSet ctx g.rtp.game_rtp d n := by
  unfold rtpNarrow narrowSet
  dsimp only
  repeat' split
  all_goals rfl

/-- `rtpNarrow` leaves every `Globals` field other than `game_rtp` and the
log unchanged; in particular the search paths, the detected list, the flags
and the tree. -/
theorem rtpNarrow_fields (ctx : Ctx) (g : Globals) (d n : String) :
    (rtpNarrow ctx g d n).tree = g.tree ∧
    (rtpNarrow ctx g d n).rtp.search_paths = g.rtp.search_paths ∧
    (rtpNarrow ctx g d n).rtp.disable_rtp = g.rtp.disable_rtp ∧
    (rtpNarrow ctx g d n).rtp.game_has_full_package_flag = g.rtp.game_has_full_package_flag ∧
    (rtpNarrow ctx g d n).rtp.warning_broken_rtp_game_shown =
      g.rtp.warning_broken_rtp_game_shown ∧
    (rtpNarrow ctx g d n).rtp.detected_rtp = g.rtp.detected_rtp := by
  unfold rtpNarrow
  dsimp only
  repeat' split
  all_goals exact ⟨rfl, rfl, rfl, rfl, rfl, rfl⟩

/-- `narrowSet` preserves add-on freeness of the set, provided the oracle
lists the add-on at most once per candidate vector. -/
theorem narrowSet_addonFree (ctx : Ctx)
    (hor : ∀ d n, (ctx.oracleAny d n ctx.version).count RTPType.RPG2000_DonMiguelAddon ≤ 1)
    (s : List RTPType) (d n : String) (hs : RTPType.RPG2000_DonMiguelAddon ∉ s) :
    RTPType.RPG2000_DonMiguelAddon ∉ narrowSet ctx s d n := by
  unfold narrowSet
  repeat' split
  all_goals first
    | exact hs
    | exact candidates_addonFree (ctx.oracleAny d n ctx.version) (hor d n)
    | (intro hmem; exact hs (List.mem_of_mem_filter hmem))

/-- The narrowing step preserves add-on freeness of the globals, provided
the oracle lists the add-on at most once per candidate vector. -/
theorem rtpNarrow_addonFree (ctx : Ctx)
    (hor : ∀ d n, (ctx.oracleAny d n ctx.version).count RTPType.RPG2000_DonMiguelAddon ≤ 1)
    (g : Globals) (d n : String) (hg : addonFree g) : addonFree (rtpNarrow ctx g d n) := by
  unfold addonFree
  rw [rtpNarrow_game_rtp]
  exact narrowSet_addonFree ctx hor g.rtp.game_rtp d n hg

/-- `findInTree` never changes the globals. -/
theorem findInTree_globals (ctx : Ctx) (g : Globals) (tree : DirectoryTree) (cd cn : String)
    (exts : List String) (r : String) (g' : Globals)
    (h : findInTree ctx g tree cd cn exts = some (r, g')) : g' = g := by
  unfold findInTree at h
  split at h
  · exact absurd h (by simp)
  · split at h
    · cases h; rfl
    · split at h
      · exact absurd h (by simp)
      · split at h
        · cases h; rfl
        · cases h; rfl

/-- Add-on preservation across the whole mutually recursive lookup family:
as long as the oracle lists the add-on variant at most once per candidate
vector, no operation — at any fuel, along any control path, re-entrant ones
included — ever puts the add-on variant into `game_rtp`. -/
theorem addon_preservation (ctx : Ctx)
    (hor : ∀ d n, (ctx.oracleAny d n ctx.version).count RTPType.RPG2000_DonMiguelAddon ≤ 1) :
    ∀ f : Nat,
      (∀ g tree d n e tr r g', FindFile ctx f g tree d n e tr = some (r, g') →
        addonFree g → addonFree g') ∧
      (∀ g tree canon e r g', fdExtsLoop ctx f g tree canon e = some (r, g') →
        addonFree g → addonFree g') ∧
      (∀ g tree n r g', FindDefaultTree ctx f g tree n = some (r, g') →
        addonFree g → addonFree g') ∧
      (∀ g d n r g', FindDefaultDir ctx f g d n = some (r, g') →
        addonFree g → addonFree g') ∧
      (∀ g d n e tt r g', FindFileTop ctx f g d n e tt = some (r, g') →
        addonFree g → addonFree g') ∧
      (∀ g d n e b r fl g', rtp_lookup ctx f g d n e b = some (r, fl, g') →
        addonFree g → addonFree g') ∧
      (∀ g ps d n e r g', normalSearch ctx f g ps d n e = some (r, g') →
        addonFree g → addonFree g') ∧
      (∀ g hits d n e b o fl g', crossOuter ctx f g hits d n e b = some (o, fl, g') →
        addonFree g → addonFree g') ∧
      (∀ g h rest snap d n e b o fl g', crossInner ctx f g h rest snap d n e b =
        some (o, fl, g') → addonFree g → addonFree g') := by
  intro f
  induction f with
  | zero =>
    refine ⟨?_, ?_, ?_, ?_, ?_, ?_, ?_, ?_, ?_⟩
    · intro g tree d n e tr r g' h _; exact absurd h (by simp [FindFile])
    · intro g tree canon e r g' h _; exact absurd h (by simp [fdExtsLoop])
    · intro g tree n r g' h _; exact absurd h (by simp [FindDefaultTree])
    · intro g d n r g' h _; exact absurd h (by simp [FindDefaultDir])
    · intro g d n e tt r g' h _; exact absurd h (by simp [FindFileTop])
    · intro g d n e b r fl g' h _; exact absurd h (by simp [rtp_lookup])
    · intro g ps d n e r g' h _; exact absurd h (by simp [normalSearch])
    · intro g hits d n e b o fl g' h _; exact absurd h (by simp [crossOuter])
    · intro g h' rest snap d n e b o fl g' h _; exact absurd h (by simp [crossInner])
  | succ f ih =>
    obtain ⟨ihFF, ihEL, ihFDT, ihFDD, ihTOP, ihRTP, ihNS, ihCO, ihCI⟩ := ih
    refine ⟨?_, ?_, ?_, ?_, ?_, ?_, ?_, ?_, ?_⟩
    · -- FindFile
      intro g tree d n e tr r g' hcall hfree
      cases tr
      case false =>
        simp only [FindFile, Bool.false_eq_true, false_and, if_false] at hcall
        split at hcall
        · split at hcall
          · exact ihEL _ _ _ _ _ _ hcall hfree
          · exact (findInTree_globals _ _ _ _ _ _ _ _ hcall) ▸ hfree
        · exact (findInTree_globals _ _ _ _ _ _ _ _ hcall) ▸ hfree
      case true =>
        simp only [FindFile, true_and, reduceIte] at hcall
        split at hcall
        · cases hcall; exact hfree
        · split at hcall
          · split at hcall
            · exact ihEL _ _ _ _ _ _ hcall hfree
            · exact (findInTree_globals _ _ _ _ _ _ _ _ hcall) ▸ hfree
          · exact (findInTree_globals _ _ _ _ _ _ _ _ hcall) ▸ hfree
    · -- fdExtsLoop
      intro g tree canon e r g' hcall hfree
      match e with
      | [] =>
        simp only [fdExtsLoop] at hcall
        cases hcall; exact hfree
      | e1 :: es =>
        simp only [fdExtsLoop] at hcall
        split at hcall
        · exact absurd hcall (by simp)
        · rename_i r1 g1 heq
          split at hcall
          · cases hcall
            exact ihFDT _ _ _ _ _ heq hfree
          · exact ihEL _ _ _ _ _ _ hcall (ihFDT _ _ _ _ _ heq hfree)
    · -- FindDefaultTree
      intro g tree n r g' hcall hfree
      simp only [FindDefaultTree] at hcall
      split at hcall
      · exact ihFDD _ _ _ _ _ hcall hfree
      · split at hcall
        · cases hcall; exact hfree
        · cases hcall; exact hfree
    · -- FindDefaultDir
      intro g d n r g' hcall hfree
      simp only [FindDefaultDir] at hcall
      exact ihTOP _ _ _ _ _ _ _ hcall hfree
    · -- FindFileTop
      intro g d n e tt r g' hcall hfree
      simp only [FindFileTop] at hcall
      split at hcall
      · exact absurd hcall (by simp)
      · rename_i T hT
        split at hcall
        · exact absurd hcall (by simp)
        · rename_i r1 g1 heq1
          have hfree1 : addonFree g1 := by
            split at heq1
            · exact ihFF _ _ _ _ _ _ _ _ heq1 hfree
            · cases heq1; exact hfree
          split at hcall
          · cases hcall; exact hfree1
          · split at hcall
            · exact absurd hcall (by simp)
            · rename_i r2 g2 heq2
              have hfree2 : addonFree g2 := ihFF _ _ _ _ _ _ _ _ heq2 hfree1
              split at hcall
              · cases hcall; exact hfree2
              · split at hcall
                · cases hcall; exact hfree2
                · split at hcall
                  · exact absurd hcall (by simp)
                  · rename_i ret fl g3 heq3
                    have hfree3 : addonFree g3 := ihRTP _ _ _ _ _ _ _ _ heq3 hfree2
                    split at hcall
                    · cases hcall
                      split
                      · split
                        · exact hfree3
                        · split
                          · exact hfree3
                          · exact hfree3
                      · exact hfree3
                    · cases hcall
                      split
                      · split
                        · exact hfree3
                        · split
                          · exact hfree3
                          · exact hfree3
                      · exact hfree3
    · -- rtp_lookup
      intro g d n e b r fl g' hcall hfree
      simp only [rtp_lookup] at hcall
      have hnarrow : addonFree (rtpNarrow ctx g d n) := rtpNarrow_addonFree ctx hor g d n hfree
      split at hcall
      · split at hcall
        · exact absurd hcall (by simp)
        · rename_i r1 g1 heq1
          cases hcall
          exact ihNS _ _ _ _ _ _ _ heq1 hnarrow
      · split at hcall
        · exact absurd hcall (by simp)
        · rename_i r1 fl1 g1 heq1
          cases hcall
          exact ihCO _ _ _ _ _ _ _ _ _ heq1 hnarrow
        · rename_i fl1 g1 heq1
          have hfree1 : addonFree g1 := ihCO _ _ _ _ _ _ _ _ _ heq1 hnarrow
          split at hcall
          · exact absurd hcall (by simp)
          · rename_i r2 g2 heq2
            cases hcall
            exact ihNS _ _ _ _ _ _ _ heq2 hfree1
    · -- normalSearch
      intro g ps d n e r g' hcall hfree
      match ps with
      | [] =>
        simp only [normalSearch] at hcall
        cases hcall; exact hfree
      | p :: rest =>
        simp only [normalSearch] at hcall
        split at hcall
        · exact absurd hcall (by simp)
        · rename_i r1 g1 heq1
          have hfree1 : addonFree g1 := ihFF _ _ _ _ _ _ _ _ heq1 hfree
          split at hcall
          · cases hcall; exact hfree1
          · exact ihNS _ _ _ _ _ _ _ hcall hfree1
    · -- crossOuter
      intro g hits d n e b o fl g' hcall hfree
      match hits with
      | [] =>
        simp only [crossOuter] at hcall
        cases hcall; exact hfree
      | h :: hs =>
        simp only [crossOuter] at hcall
        split at hcall
        · exact absurd hcall (by simp)
        · rename_i r1 fl1 g1 heq1
          cases hcall
          exact ihCI _ _ _ _ _ _ _ _ _ _ _ heq1 hfree
        · rename_i fl1 g1 heq1
          exact ihCO _ _ _ _ _ _ _ _ _ hcall (ihCI _ _ _ _ _ _ _ _ _ _ _ heq1 hfree)
    · -- crossInner
      intro g h rest snap d n e b o fl g' hcall hfree
      match rest with
      | [] =>
        simp only [crossInner] at hcall
        cases hcall; exact hfree
      | t :: ts =>
        simp only [crossInner] at hcall
        split at hcall
        · split at hcall
          · exact absurd hcall (by simp)
          · rename_i ret g1 heq1
            have hfree1 : addonFree g1 := ihFF _ _ _ _ _ _ _ _ heq1 hfree
            split at hcall
            · exact absurd hcall (by simp)
            · split at hcall
              · cases hcall; exact hfree1
              · exact ihCI _ _ _ _ _ _ _ _ _ _ _ hcall hfree1
        · exact ihCI _ _ _ _ _ _ _ _ _ _ _ hcall hfree

/-- C3: vendor add-on exclusion invariant.  For every sequence of
`rtp_lookup` calls starting from an add-on-free state (the session starts
with `game_rtp` empty), the spurious `RTP::Type::RPG2000_DonMiguelAddon`
variant is never an element of `game_rtp` — even when the oracle includes it
among the raw candidates of every request — as long as the oracle lists it
at most once per candidate vector (the oracle's candidate collections are
sets).  Instantiating the start state with any intermediate state of a
session makes this the invariant at every point. -/
theorem c3_addon_never_in_game_rtp (ctx : Ctx) (fuel : Nat)
    (hor : ∀ d n, (ctx.oracleAny d n ctx.version).count RTPType.RPG2000_DonMiguelAddon ≤ 1) :
    ∀ (reqs : List (String × String × List String × Bool)) (g g' : Globals),
      addonFree g → runRtpSession ctx fuel g reqs = some g' → addonFree g' := by
  intro reqs
  induction reqs with
  | nil =>
    intro g g' hg hrun
    simp only [runRtpSession] at hrun
    cases hrun
    exact hg
  | cons req rest ih =>
    intro g g' hg hrun
    obtain ⟨d, n, e, b⟩ := req
    simp only [runRtpSession] at hrun
    split at hrun
    · exact absurd hrun (by simp)
    · rename_i r1 fl1 g1 heq1
      exact ih g1 g'
        ((addon_preservation ctx hor fuel).2.2.2.2.2.1 _ _ _ _ _ _ _ _ heq1 hg) hrun

/-- Oracle that lists the spurious add-on among the raw candidates of every
request (followed by one real variant). -/
def ctxC3 : Ctx :=
  ⟨fun s => s, "\\", "", "", 2000,
    fun _ _ _ => [RTPType.RPG2000_DonMiguelAddon, RTPType.RPG2000_OfficialJapanese],
    fun _ _ _ _ => ("", none)⟩

/-- The state after one `rtp_lookup` call under `ctxC3`. -/
def gC3W : Globals :=
  ⟨none, ⟨[], false, false, false, [], [RTPType.RPG2000_OfficialJapanese]⟩,
    [LogMsg.debugGameUsesRtp RTPType.RPG2000_OfficialJapanese]⟩

/-- Witness for C3 at a concrete input: one request whose raw candidates
include the add-on leaves `game_rtp` without it. -/
theorem c3_addon_witness :
    runRtpSession ctxC3 3 gSess [("d", "a", [""], false)] = some gC3W ∧ addonFree gC3W :=
  ⟨by decide,
    c3_addon_never_in_game_rtp ctxC3 3 (fun d n => by simp [ctxC3]) [("d", "a", [""], false)]
      gSess gC3W (by unfold addonFree; decide) (by decide)⟩

/-- Tokens produced by `tokSplit` contain no delimiter character. -/
theorem tokSplit_no_delim (p : Char → Bool) :
    ∀ (cs : List Char) (t : List Char), t ∈ tokSplit p cs → ∀ c ∈ t, p c = false := by
  intro cs
  induction cs with
  | nil =>
    intro t ht c hc
    simp only [tokSplit, List.mem_singleton] at ht
    subst ht
    cases hc
  | cons a rest ih =>
    intro t ht c hc
    simp only [tokSplit] at ht
    split at ht
    · rcases List.mem_cons.mp ht with h | h
      · subst h; cases hc
      · exact ih t h c hc
    · rename_i hpa
      split at ht
      · rename_i hsplit
        exact absurd hsplit (by
          have := ih
          cases hrest : tokSplit p rest with
          | nil =>
            intro _
            cases rest with
            | nil => simp [tokSplit] at hrest
            | cons b bs =>
              simp only [tokSplit] at hrest
              split at hrest
              · cases hrest
              · split at hrest <;> cases hrest
          | cons u us => simp [hrest])
      · rename_i u us hrest
        rcases List.mem_cons.mp ht with h | h
        · subst h
          rcases List.mem_cons.mp hc with h2 | h2
          · subst h2
            simpa using hpa
          · exact ih u (by rw [hrest]; exact List.mem_cons_self u us) c h2
        · exact ih t (by rw [hrest]; exact List.mem_cons_of_mem u h) c hc

/-- A list without delimiter characters tokenizes to the single token that
is the list itself. -/
theorem tokSplit_single (p : Char → Bool) :
    ∀ (cs : List Char), (∀ c ∈ cs, p c = false) → tokSplit p cs = [cs] := by
  intro cs
  induction cs with
  | nil => intro _; rfl
  | cons a rest ih =>
    intro h
    have ha := h a (List.mem_cons_self a rest)
    have hrest := ih (fun c hc => h c (List.mem_cons_of_mem a hc))
    simp only [tokSplit, ha, Bool.false_eq_true, if_false, hrest]

/-- Elements of `SplitPath` contain neither the escape lead character nor a
slash. -/
theorem SplitPath_chars (esc s : String) (t : String) (ht : t ∈ SplitPath esc s)
    (c : Char) (hc : c ∈ t.toList) : ¬(c = escChar esc ∨ c = '/') := by
  unfold SplitPath at ht
  obtain ⟨l, hl, rfl⟩ := List.mem_map.mp ht
  have := tokSplit_no_delim (fun t => t = escChar esc || t = '/') s.toList l hl c hc
  simp only [Bool.or_eq_false_iff, decide_eq_false_iff_not] at this
  tauto

/-- A string without delimiter characters splits into itself alone. -/
theorem SplitPath_single (esc s : String)
    (h : ∀ c ∈ s.toList, ¬(c = escChar esc ∨ c = '/')) : SplitPath esc s = [s] := by
  unfold SplitPath
  rw [tokSplit_single]
  · rfl
  · intro c hc
    have := h c hc
    simp only [Bool.or_eq_false_iff, decide_eq_false_iff_not]
    tauto

/-- Characters of a `MakePath` result: never a backslash, and either a slash
or a character of one of the inputs. -/
theorem MakePath_chars (d n : String) (c : Char) (hc : c ∈ (MakePath d n).toList) :
    c ≠ '\\' ∧ (c = '/' ∨ c ∈ d.toList ∨ c ∈ n.toList) := by
  unfold MakePath at hc
  obtain ⟨c', hc', hrepl⟩ := List.mem_map.mp hc
  have hnb : repl c' ≠ '\\' := by
    unfold repl
    split
    · decide
    · assumption
  constructor
  · rw [← hrepl]; exact hnb
  · by_cases hb : c' = '\\'
    · left
      rw [← hrepl, hb]
      rfl
    · have : repl c' = c' := by unfold repl; simp [hb]
      rw [this] at hrepl
      subst hrepl
      split at hc'
      · right; right; exact hc'
      · rcases List.mem_append.mp hc' with h | h
        · right; left; exact h
        · rcases List.mem_cons.mp h with h2 | h2
          · left; exact h2
          · right; right; exact h2

/-- Characters of a `joinPath` fold come from the accumulator, from the
joined strings, or are slashes; backslashes cannot survive. -/
theorem foldl_MakePath_chars (c : Char) (hslash : c ≠ '/') :
    ∀ (l : List String) (acc : String), c ∈ (l.foldl MakePath acc).toList →
      c ∈ acc.toList ∨ ∃ t ∈ l, c ∈ t.toList := by
  intro l
  induction l with
  | nil => intro acc h; exact Or.inl h
  | cons t ts ih =>
    intro acc h
    rcases ih (MakePath acc t) h with h1 | h1
    · rcases (MakePath_chars acc t c h1).2 with h2 | h2 | h2
      · exact absurd h2 hslash
      · exact Or.inl h2
      · exact Or.inr ⟨t, List.mem_cons_self t ts, h2⟩
    · obtain ⟨u, hu, hcu⟩ := h1
      exact Or.inr ⟨u, List.mem_cons_of_mem t hu, hcu⟩

/-- Members of the canonicalization fold's retained-component list come from
the initial list or from the split components. -/
theorem canonFold_mem (comps : List String) :
    ∀ (st : List String × Int × Nat) (x : String),
      x ∈ (comps.foldl canonStep st).1 → x ∈ st.1 ∨ x ∈ comps := by
  induction comps with
  | nil => intro st x h; exact Or.inl h
  | cons comp cs ih =>
    intro st x h
    rcases ih (canonStep st comp) x h with h1 | h1
    · unfold canonStep at h1
      split at h1
      · split at h1
        · exact Or.inl ((List.dropLast_sublist st.1).subset h1)
        · split at h1
          · exact Or.inl h1
          · exact Or.inl h1
      · split at h1
        · exact Or.inl h1
        · rcases List.mem_append.mp h1 with h2 | h2
          · exact Or.inl h2
          · exact Or.inr (List.mem_cons.mpr (Or.inl (List.mem_singleton.mp h2)))
    · exact Or.inr (List.mem_cons_of_mem comp h1)

/-- The canonicalized path contains no backslash and, besides slashes, only
characters of the split components — in particular never the escape lead
character when that is not the slash itself. -/
theorem MakeCanonical_chars (esc path : String) (dep : Int) (c : Char)
    (hslash : c ≠ '/') (hc : c ∈ (MakeCanonical esc path dep).toList) :
    c ≠ escChar esc := by
  unfold MakeCanonical joinPath at hc
  rcases foldl_MakePath_chars c hslash _ "" hc with h | h
  · cases h
  · obtain ⟨t, ht, hct⟩ := h
    rcases canonFold_mem (SplitPath esc path) ([], dep, 0) t ht with h2 | h2
    · cases h2
    · intro hce
      exact SplitPath_chars esc path t h2 c hct (Or.inl hce)

/-- `splitSlash` finds nothing exactly when there is no slash. -/
theorem splitSlash_none_no_slash :
    ∀ (cs : List Char), splitSlash cs = none → ∀ c ∈ cs, c ≠ '/' := by
  intro cs
  induction cs with
  | nil => intro _ c hc; cases hc
  | cons a rest ih =>
    intro h c hc
    simp only [splitSlash] at h
    split at h
    · cases h
    · rename_i ha
      rcases List.mem_cons.mp hc with h2 | h2
      · subst h2; exact ha
      · cases hsp : splitSlash rest with
        | none => exact ih hsp c h2
        | some p => rw [hsp] at h; cases h

/-- The extension list contains no path delimiter: no slash and no escape
lead character in any extension (true of every extension list the program
passes: ".png", ".ogg", "", ...). -/
def SepFree (ctx : Ctx) (exts : List String) : Prop :=
  ∀ e ∈ exts, ∀ c ∈ e.toList, c ≠ '/' ∧ c ≠ escChar ctx.escape_symbol

/-- `strCat` concatenates the character lists. -/
theorem strCat_toList (a b : String) : (strCat a b).toList = a.toList ++ b.toList := rfl

/-- `FindDefault(tree, name)` on a single-component name never changes the
globals (it is a pure file-map lookup). -/
theorem FindDefaultTree_single_preserve (ctx : Ctx) (f : Nat) (g : Globals)
    (tree : DirectoryTree) (nm w : String) (r : String) (g' : Globals)
    (hsplit : SplitPath ctx.escape_symbol nm = [w])
    (hcall : FindDefaultTree ctx f g tree nm = some (r, g')) : g' = g := by
  match f with
  | 0 => simp [FindDefaultTree] at hcall
  | f + 1 =>
    simp only [FindDefaultTree] at hcall
    split at hcall
    · rename_i c0 c1 rest heq
      rw [hsplit] at heq
      simp at heq
    · split at hcall
      · cases hcall; rfl
      · cases hcall; rfl

/-- The path-correction extension loop never changes the globals when the
canonical name and the extensions are delimiter-free. -/
theorem fdExtsLoop_preserve (ctx : Ctx) (tree : DirectoryTree) (canon : String)
    (hcanon : ∀ c ∈ canon.toList, c ≠ '/' ∧ c ≠ escChar ctx.escape_symbol) :
    ∀ (f : Nat) (exts : List String), SepFree ctx exts →
      ∀ (g : Globals) (r : String) (g' : Globals),
        fdExtsLoop ctx f g tree canon exts = some (r, g') → g' = g := by
  intro f
  induction f with
  | zero => intro exts _ g r g' hcall; simp [fdExtsLoop] at hcall
  | succ f ih =>
    intro exts hsep g r g' hcall
    match exts with
    | [] =>
      simp only [fdExtsLoop] at hcall
      cases hcall; rfl
    | e :: es =>
      simp only [fdExtsLoop] at hcall
      split at hcall
      · exact absurd hcall (by simp)
      · rename_i r1 g1 heq1
        have hsingle : SplitPath ctx.escape_symbol (strCat canon e) = [strCat canon e] := by
          apply SplitPath_single
          intro c hc
          rw [strCat_toList] at hc
          rcases List.mem_append.mp hc with h | h
          · have := hcanon c h
            tauto
          · have := hsep e (List.mem_cons_self e es) c h
            tauto
        have hg1 : g1 = g :=
          FindDefaultTree_single_preserve ctx f g tree (strCat canon e) (strCat canon e)
            r1 g1 hsingle heq1
        subst hg1
        split at hcall
        · cases hcall; rfl
        · exact ih es (fun x hx => hsep x (List.mem_cons_of_mem e hx)) g1 r g' hcall

/-- The tree-level `FindFile` never changes the globals when the extension
list is delimiter-free: the only state-touching path (the re-entry into the
top-level lookup through `FindDefault`) needs a separator to appear in
`canon + ext`, and the canonicalized name cannot supply one. -/
theorem FindFile_preserve (ctx : Ctx) (exts : List String) (hsep : SepFree ctx exts) :
    ∀ (f : Nat) (g : Globals) (tree : DirectoryTree) (d n : String) (tr : Bool)
      (r : String) (g' : Globals),
      FindFile ctx f g tree d n exts tr = some (r, g') → g' = g := by
  intro f g tree d n tr r g' hcall
  match f with
  | 0 => simp [FindFile] at hcall
  | f + 1 =>
    cases tr
    case false =>
      simp only [FindFile, Bool.false_eq_true, false_and, if_false] at hcall
      split at hcall
      · split at hcall
        · rename_i heqs
          refine fdExtsLoop_preserve ctx tree _ ?_ f exts hsep g r g' hcall
          intro c hc
          have hs := splitSlash_none_no_slash _ heqs c hc
          exact ⟨hs, MakeCanonical_chars _ _ _ c hs hc⟩
        · exact findInTree_globals _ _ _ _ _ _ _ _ hcall
      · exact findInTree_globals _ _ _ _ _ _ _ _ hcall
    case true =>
      simp only [FindFile, true_and, reduceIte] at hcall
      split at hcall
      · cases hcall; rfl
      · split at hcall
        · split at hcall
          · rename_i heqs
            refine fdExtsLoop_preserve ctx tree _ ?_ f exts hsep g r g' hcall
            intro c hc
            have hs := splitSlash_none_no_slash _ heqs c hc
            exact ⟨hs, MakeCanonical_chars _ _ _ c hs hc⟩
          · exact findInTree_globals _ _ _ _ _ _ _ _ hcall
        · exact findInTree_globals _ _ _ _ _ _ _ _ hcall

/-- `normal_search` never changes the globals when the extension list is
delimiter-free. -/
theorem normalSearch_preserve (ctx : Ctx) (exts : List String) (hsep : SepFree ctx exts) :
    ∀ (f : Nat) (ps : List DirectoryTree) (g : Globals) (d n : String) (r : String)
      (g' : Globals), normalSearch ctx f g ps d n exts = some (r, g') → g' = g := by
  intro f
  induction f with
  | zero => intro ps g d n r g' hcall; simp [normalSearch] at hcall
  | succ f ih =>
    intro ps g d n r g' hcall
    match ps with
    | [] =>
      simp only [normalSearch] at hcall
      cases hcall; rfl
    | p :: rest =>
      simp only [normalSearch] at hcall
      split at hcall
      · exact absurd hcall (by simp)
      · rename_i r1 g1 heq1
        have hg1 : g1 = g := FindFile_preserve ctx exts hsep f g p d n false r1 g1 heq1
        subst hg1
        split at hcall
        · cases hcall; rfl
        · exact ih rest g1 d n r g' hcall

/-- The cross-variant inner loop never changes the globals when the
extension list is delimiter-free. -/
theorem crossInner_preserve (ctx : Ctx) (exts : List String) (hsep : SepFree ctx exts) :
    ∀ (f : Nat) (g : Globals) (h : RtpHitInfo) (rest snap : List RTPType) (d n : String)
      (b : Bool) (o : Option String) (fl : Bool) (g' : Globals),
      crossInner ctx f g h rest snap d n exts b = some (o, fl, g') → g' = g := by
  intro f
  induction f with
  | zero => intro g h rest snap d n b o fl g' hcall; simp [crossInner] at hcall
  | succ f ih =>
    intro g h rest snap d n b o fl g' hcall
    match rest with
    | [] =>
      simp only [crossInner] at hcall
      cases hcall; rfl
    | t :: ts =>
      simp only [crossInner] at hcall
      split at hcall
      · split at hcall
        · exact absurd hcall (by simp)
        · rename_i ret g1 heq1
          have hg1 : g1 = g := FindFile_preserve ctx exts hsep f g h.tree d _ false ret g1 heq1
          subst hg1
          split at hcall
          · exact absurd hcall (by simp)
          · split at hcall
            · cases hcall; rfl
            · exact ih g1 h ts snap d n _ o fl g' hcall
      · exact ih g h ts snap d n _ o fl g' hcall

/-- The cross-variant outer loop never changes the globals when the
extension list is delimiter-free. -/
theorem crossOuter_preserve (ctx : Ctx) (exts : List String) (hsep : SepFree ctx exts) :
    ∀ (f : Nat) (g : Globals) (hits : List RtpHitInfo) (d n : String) (b : Bool)
      (o : Option String) (fl : Bool) (g' : Globals),
      crossOuter ctx f g hits d n exts b = some (o, fl, g') → g' = g := by
  intro f
  induction f with
  | zero => intro g hits d n b o fl g' hcall; simp [crossOuter] at hcall
  | succ f ih =>
    intro g hits d n b o fl g' hcall
    match hits with
    | [] =>
      simp only [crossOuter] at hcall
      cases hcall; rfl
    | h :: hs =>
      simp only [crossOuter] at hcall
      split at hcall
      · exact absurd hcall (by simp)
      · rename_i r1 fl1 g1 heq1
        cases hcall
        exact crossInner_preserve ctx exts hsep f g h _ _ d n _ _ _ _ heq1
      · rename_i fl1 g1 heq1
        have hg1 : g1 = g := crossInner_preserve ctx exts hsep f g h _ _ d n _ _ _ _ heq1
        subst hg1
        exact ih g1 hs d n fl1 o fl g' hcall

/-- With a delimiter-free extension list, one `rtp_lookup` call changes the
globals exactly by the narrowing block: the searches only read state. -/
theorem rtp_lookup_state (ctx : Ctx) (exts : List String) (hsep : SepFree ctx exts)
    (f : Nat) (g : Globals) (d n : String) (b : Bool) (r : String) (fl : Bool) (g' : Globals)
    (hcall : rtp_lookup ctx f g d n exts b = some (r, fl, g')) :
    g' = rtpNarrow ctx g d n := by
  match f with
  | 0 => simp [rtp_lookup] at hcall
  | f + 1 =>
    simp only [rtp_lookup] at hcall
    split at hcall
    · split at hcall
      · exact absurd hcall (by simp)
      · rename_i r1 g1 heq1
        cases hcall
        exact normalSearch_preserve ctx exts hsep f _ _ d n _ _ heq1
    · split at hcall
      · exact absurd hcall (by simp)
      · rename_i r1 fl1 g1 heq1
        cases hcall
        exact crossOuter_preserve ctx exts hsep f _ _ d n _ _ _ _ heq1
      · rename_i fl1 g1 heq1
        have hg1 : g1 = rtpNarrow ctx g d n :=
          crossOuter_preserve ctx exts hsep f _ _ d n _ _ _ _ heq1
        split at hcall
        · exact absurd hcall (by simp)
        · rename_i r2 g2 heq2
          cases hcall
          rw [normalSearch_preserve ctx exts hsep f _ _ d n _ _ heq2]
          exact hg1

/-- `narrowSet` of a non-empty set is a subset of that set. -/
theorem narrowSet_subset_of_ne_nil (ctx : Ctx) (s : List RTPType) (d n : String)
    (hne : s ≠ []) : narrowSet ctx s d n ⊆ s := by
  unfold narrowSet
  by_cases h1 : s.length ≠ 1
  · rw [if_pos h1]
    by_cases h2 : (ctx.oracleAny d n ctx.version).erase RTPType.RPG2000_DonMiguelAddon ≠ []
    · rw [if_pos h2]
      by_cases h3 : s = []
      · exact absurd h3 hne
      · rw [if_neg h3]
        exact fun x hx => List.mem_of_mem_filter hx
    · rw [if_neg h2]
      exact fun x hx => hx
  · rw [if_neg h1]
    exact fun x hx => hx

/-- C2 as amended: narrowing is monotone only while `game_rtp` is
non-empty — if `game_rtp` is non-empty before an `rtp_lookup` call (on a
delimiter-free extension list), the set after the call is a subset of the
set before it.  When the intersection has emptied the set, a later lookup
with non-empty candidates re-seeds it, which is what the counterexample
exhibits. -/
theorem c2_narrowing_monotone_when_nonempty (ctx : Ctx) (exts : List String)
    (f : Nat) (g : Globals) (d n : String) (b : Bool) (r : String) (fl : Bool) (g' : Globals)
    (hsep : SepFree ctx exts) (hne : g.rtp.game_rtp ≠ [])
    (hcall : rtp_lookup ctx f g d n exts b = some (r, fl, g')) :
    g'.rtp.game_rtp ⊆ g.rtp.game_rtp := by
  rw [rtp_lookup_state ctx exts hsep f g d n b r fl g' hcall, rtpNarrow_game_rtp]
  exact narrowSet_subset_of_ne_nil ctx g.rtp.game_rtp d n hne

/-- A state whose `game_rtp` already holds `{V1, V2}`. -/
def gC2A : Globals :=
  ⟨none, ⟨[], false, false, false, [],
    [RTPType.RPG2000_OfficialJapanese, RTPType.RPG2000_OfficialEnglish]⟩, []⟩

/-- The state after looking up asset `d/b` from `gC2A` under `ctxC1`. -/
def gC2B : Globals :=
  ⟨none, ⟨[], false, false, false, [], [RTPType.RPG2000_OfficialEnglish]⟩,
    [LogMsg.debugGameUsesRtp RTPType.RPG2000_OfficialEnglish]⟩

/-- Witness for the amended C2 at a concrete input: narrowing `{V1, V2}`
through asset `B` yields `{V2} ⊆ {V1, V2}`. -/
theorem c2_narrowing_monotone_witness :
    rtp_lookup ctxC1 3 gC2A "d" "b" [""] false = some ("", false, gC2B) ∧
    gC2B.rtp.game_rtp ⊆ gC2A.rtp.game_rtp :=
  ⟨by decide,
    c2_narrowing_monotone_when_nonempty ctxC1 [""] 3 gC2A "d" "b" false "" false gC2B
      (by unfold SepFree; decide) (by decide) (by decide)⟩

/-- Recognizes the "Cannot find ... Install RTP ..." user-visible warning. -/
def isMissingRtpWarning : LogMsg → Bool
  | LogMsg.warnCannotFindRtp _ _ _ => true
  | _ => false

/-- Runs a sequence of top-level `FindFile` calls (each request: directory,
name, extensions, tryTranslate), threading the globals. -/
def runFindSession (ctx : Ctx) (fuel : Nat) (g : Globals) :
    List (String × String × List String × Bool) → Option Globals
  | [] => some g
  | (d, n, e, tt) :: rest =>
    match FindFileTop ctx fuel g d n e tt with
    | none => none
    | some (_, g') => runFindSession ctx fuel g' rest

/-- Context of the missing-RTP scenario: the oracle owns every asset (each
maps to variant `V1`, and the cross-variant table translates it and reports
it as an RTP asset), while no tree contains any file. -/
def ctxC4 : Ctx :=
  ⟨fun s => s, "\\", "", "", 2000,
    fun _ _ _ => [RTPType.RPG2000_OfficialJapanese],
    fun _ _ _ _ => ("t", some true)⟩

/-- Start state of the missing-RTP scenario: RTP enabled, no full-package
flag, one detected (empty) RTP install, empty game tree. -/
def gC4 : Globals :=
  ⟨some ⟨"G", [], [], []⟩,
    ⟨[], false, false, false, [⟨RTPType.RPG2000_OfficialJapanese, ⟨"R", [], [], []⟩⟩], []⟩,
    []⟩

/-- Final state of the two-call missing-RTP session. -/
def gC4F : Globals :=
  ⟨some ⟨"G", [], [], []⟩,
    ⟨[], false, false, false, [⟨RTPType.RPG2000_OfficialJapanese, ⟨"R", [], [], []⟩⟩],
      [RTPType.RPG2000_OfficialJapanese]⟩,
    [LogMsg.debugGameUsesRtp RTPType.RPG2000_OfficialJapanese,
      LogMsg.debugCannotFind "pic" "n1", LogMsg.debugCannotFind "pic" "n2"]⟩

/-- C4 counterexample: two resolution calls that each satisfy the
missing-RTP-asset condition — the oracle classifies the asset as RTP-owned
(`oracleAny` non-empty and the cross-variant table reports it as an RTP
asset), nothing is found anywhere (every tree is empty, both results are
misses, witnessed by the two "Cannot find" debug lines), the full-package
flag is clear and the category `pic` is not audio — yet the user-visible
missing-RTP warning is logged zero times, not once: `rtp_lookup` reports
`is_rtp_asset = false` whenever its result is empty, so the warning branch
never runs. -/
theorem c4_counterexample :
    runFindSession ctxC4 6 gC4
        [("pic", "n1", [""], false), ("pic", "n2", [""], false)] = some gC4F ∧
    gC4F.log.countP isMissingRtpWarning = 0 ∧
    ctxC4.oracleAny "pic" "n1" 2000 = [RTPType.RPG2000_OfficialJapanese] ∧
    ctxC4.oracleAny "pic" "n2" 2000 = [RTPType.RPG2000_OfficialJapanese] ∧
    (ctxC4.oracleRtpToRtp "pic" "n1" RTPType.RPG2000_OfficialJapanese
      RTPType.RPG2000_OfficialJapanese).2 = some true ∧
    gC4.rtp.game_has_full_package_flag = false ∧
    ctxC4.norm "pic" ≠ "music" ∧ ctxC4.norm "pic" ≠ "sound" := by
  refine ⟨by decide, by decide, by decide, by decide, by decide, by decide, by decide, by decide⟩

/-- The narrowing block never logs the missing-RTP warning. -/
theorem rtpNarrow_missCount (ctx : Ctx) (g : Globals) (d n : String) :
    (rtpNarrow ctx g d n).log.countP isMissingRtpWarning =
      g.log.countP isMissingRtpWarning := by
  unfold rtpNarrow
  dsimp only
  repeat' split
  all_goals simp [addLog, setGameRtp, List.countP_append, isMissingRtpWarning, List.countP_cons]

/-- C4 as amended: the missing-RTP warning is never logged at all.  A
top-level `FindFile` call (on a delimiter-free extension list) leaves the
number of missing-RTP warnings in the log unchanged: the warning branch
requires `is_rtp_asset` together with an empty result, and `rtp_lookup`
never reports that combination. -/
theorem c4_missing_rtp_warning_never_logged (ctx : Ctx) (exts : List String)
    (hsep : SepFree ctx exts) (f : Nat) (g : Globals) (d n : String) (tt : Bool)
    (r : String) (g' : Globals) (hcall : FindFileTop ctx f g d n exts tt = some (r, g')) :
    g'.log.countP isMissingRtpWarning = g.log.countP isMissingRtpWarning := by
  match f with
  | 0 => simp [FindFileTop] at hcall
  | f + 1 =>
    simp only [FindFileTop] at hcall
    split at hcall
    · exact absurd hcall (by simp)
    · rename_i T hT
      split at hcall
      · exact absurd hcall (by simp)
      · rename_i r1 g1 heq1
        have hg1 : g1 = g := by
          split at heq1
          · exact FindFile_preserve ctx exts hsep f g T d n true r1 g1 heq1
          · cases heq1; rfl
        subst hg1
        split at hcall
        · cases hcall; rfl
        · split at hcall
          · exact absurd hcall (by simp)
          · rename_i r2 g2 heq2
            have hg2 : g2 = g1 := FindFile_preserve ctx exts hsep f g1 T d n false r2 g2 heq2
            subst hg2
            split at hcall
            · cases hcall; rfl
            · split at hcall
              · cases hcall
                simp [addLog, List.countP_append, isMissingRtpWarning, List.countP_cons]
              · split at hcall
                · exact absurd hcall (by simp)
                · rename_i ret fl g3 heq3
                  have hflag := rtp_lookup_flag_spec ctx f g2 (ctx.norm d) (ctx.norm n)
                    exts false ret fl g3 heq3
                  have hg3 : g3.log.countP isMissingRtpWarning =
                      g2.log.countP isMissingRtpWarning := by
                    rw [rtp_lookup_state ctx exts hsep f g2 (ctx.norm d) (ctx.norm n)
                      false ret fl g3 heq3]
                    exact rtpNarrow_missCount ctx g2 (ctx.norm d) (ctx.norm n)
                  split at hcall
                  · rename_i hret
                    cases hcall
                    split
                    · rename_i hfl
                      exact absurd hret (hflag hfl)
                    · simpa [addLog, List.countP_append, isMissingRtpWarning,
                        List.countP_cons] using hg3
                  · rename_i hret
                    cases hcall
                    split
                    · rename_i hfl
                      split
                      · simpa [addLog, setWarnShown, List.countP_append, isMissingRtpWarning,
                          List.countP_cons] using hg3
                      · split
                        · rename_i hcond
                          exact absurd hcond.1 hret
                        · exact hg3
                    · exact hg3

/-- Start state for the amended-C4 witness: RTP disabled, empty game tree. -/
def gTop : Globals := ⟨some ⟨"G", [], [], []⟩, ⟨[], true, false, false, [], []⟩, []⟩

/-- Witness for the amended C4 at a concrete input: a miss with RTP disabled
logs only the debug line, leaving the missing-RTP warning count unchanged. -/
theorem c4_missing_rtp_witness :
    FindFileTop ctxPlain 3 gTop "d" "n" [""] false =
      some ("", addLog gTop (LogMsg.debugCannotFind "d" "n")) ∧
    (addLog gTop (LogMsg.debugCannotFind "d" "n")).log.countP isMissingRtpWarning =
      gTop.log.countP isMissingRtpWarning :=
  ⟨by decide,
    c4_missing_rtp_warning_never_logged ctxPlain [""] (by unfold SepFree; decide) 3 gTop
      "d" "n" false "" (addLog gTop (LogMsg.debugCannotFind "d" "n")) (by decide)⟩

/-- The path `p` lies under the directory `base`: the separator-normalized
base followed by a slash is a prefix of `p`. -/
def isUnder (base p : String) : Bool :=
  (base.toList.map repl ++ ['/']).isPrefixOf p.toList

/-- A path whose characters are the normalized base, a slash and a suffix
lies under the base. -/
theorem isUnder_of_toList (base p : String) (suffix : List Char)
    (h : p.toList = base.toList.map repl ++ '/' :: suffix) : isUnder base p = true := by
  unfold isUnder
  rw [h, List.isPrefixOf_iff_prefix]
  exact ⟨suffix, by simp⟩

/-- A direct `MakePath base n` result lies under a non-empty base. -/
theorem MakePath_isUnder (base n : String) (hb : base ≠ "") :
    isUnder base (MakePath base n) = true := by
  apply isUnder_of_toList base _ (n.toList.map repl)
  unfold MakePath
  rw [if_neg hb]
  simp [repl]

/-- The main-branch result of the tree-level `FindFile` — built from
`directory_path + "/" + dir entry` and the file entry — lies under the
base. -/
theorem MakePath_nested_isUnder (base dirOrig n : String) :
    isUnder base (MakePath (strCat base (strCat "/" dirOrig)) n) = true := by
  apply isUnder_of_toList base _ ((dirOrig.toList.map repl) ++ '/' :: n.toList.map repl)
  unfold MakePath
  rw [if_neg (by
    intro h
    have h2 : (strCat base (strCat "/" dirOrig)).toList = ([] : List Char) := by rw [h]; rfl
    rw [strCat_toList, strCat_toList] at h2
    simp at h2)]
  rw [strCat_toList, strCat_toList]
  simp [repl]

/-- Every non-empty `findInTree` result lies under the tree's base path. -/
theorem findInTree_under (ctx : Ctx) (g : Globals) (tree : DirectoryTree) (cd cn : String)
    (exts : List String) (r : String) (g' : Globals)
    (hcall : findInTree ctx g tree cd cn exts = some (r, g')) (hr : r ≠ "") :
    isUnder tree.directory_path r = true := by
  unfold findInTree at hcall
  split at hcall
  · exact absurd hcall (by simp)
  · split at hcall
    · cases hcall; exact absurd rfl hr
    · split at hcall
      · exact absurd hcall (by simp)
      · split at hcall
        · cases hcall
          exact MakePath_nested_isUnder _ _ _
        · cases hcall; exact absurd rfl hr

/-- Every non-empty result of a single-component `FindDefault(tree, name)`
lies under the tree's base path (when that is non-empty). -/
theorem FindDefaultTree_single_under (ctx : Ctx) (f : Nat) (g : Globals)
    (tree : DirectoryTree) (hbase : tree.directory_path ≠ "") (nm w : String)
    (r : String) (g' : Globals) (hsplit : SplitPath ctx.escape_symbol nm = [w])
    (hcall : FindDefaultTree ctx f g tree nm = some (r, g')) (hr : r ≠ "") :
    isUnder tree.directory_path r = true := by
  match f with
  | 0 => simp [FindDefaultTree] at hcall
  | f + 1 =>
    simp only [FindDefaultTree] at hcall
    split at hcall
    · rename_i c0 c1 rest heq
      rw [hsplit] at heq
      simp at heq
    · split at hcall
      · cases hcall
        exact MakePath_isUnder _ _ hbase
      · cases hcall; exact absurd rfl hr

/-- Every non-empty result of the path-correction extension loop lies under
the tree's base path, when the canonical name and the extensions are
delimiter-free. -/
theorem fdExtsLoop_under (ctx : Ctx) (tree : DirectoryTree)
    (hbase : tree.directory_path ≠ "") (canon : String)
    (hcanon : ∀ c ∈ canon.toList, c ≠ '/' ∧ c ≠ escChar ctx.escape_symbol) :
    ∀ (f : Nat) (exts : List String), SepFree ctx exts →
      ∀ (g : Globals) (r : String) (g' : Globals),
        fdExtsLoop ctx f g tree canon exts = some (r, g') → r ≠ "" →
        isUnder tree.directory_path r = true := by
  intro f
  induction f with
  | zero => intro exts _ g r g' hcall _; simp [fdExtsLoop] at hcall
  | succ f ih =>
    intro exts hsep g r g' hcall hr
    match exts with
    | [] =>
      simp only [fdExtsLoop] at hcall
      cases hcall; exact absurd rfl hr
    | e :: es =>
      simp only [fdExtsLoop] at hcall
      split at hcall
      · exact absurd hcall (by simp)
      · rename_i r1 g1 heq1
        have hsingle : SplitPath ctx.escape_symbol (strCat canon e) = [strCat canon e] := by
          apply SplitPath_single
          intro c hc
          rw [strCat_toList] at hc
          rcases List.mem_append.mp hc with h | h
          · have := hcanon c h
            tauto
          · have := hsep e (List.mem_cons_self e es) c h
            tauto
        split at hcall
        · rename_i hr1
          cases hcall
          exact FindDefaultTree_single_under ctx f g tree hbase _ _ _ _ hsingle heq1 hr
        · exact ih es (fun x hx => hsep x (List.mem_cons_of_mem e hx)) g1 r g' hcall hr

/-- C5 as amended: sandbox containment of the tree-level `FindFile` — for
every directory tree with a non-empty base path, every category directory,
every logical name (names embedding `..` traversal included) and every
*delimiter-free* extension list, a non-empty result lies under the tree's
base path.  The counterexample shows the restriction to delimiter-free
extensions is necessary: an extension containing a separator re-enters the
top-level lookup and can return a path under the global game tree instead. -/
theorem c5_containment (ctx : Ctx) (exts : List String) (hsep : SepFree ctx exts)
    (tree : DirectoryTree) (hbase : tree.directory_path ≠ "") (f : Nat) (g : Globals)
    (d n : String) (tr : Bool) (r : String) (g' : Globals)
    (hcall : FindFile ctx f g tree d n exts tr = some (r, g')) (hr : r ≠ "") :
    isUnder tree.directory_path r = true := by
  match f with
  | 0 => simp [FindFile] at hcall
  | f + 1 =>
    cases tr
    case false =>
      simp only [FindFile, Bool.false_eq_true, false_and, if_false] at hcall
      split at hcall
      · split at hcall
        · rename_i heqs
          refine fdExtsLoop_under ctx tree hbase _ ?_ f exts hsep g r g' hcall hr
          intro c hc
          have hs := splitSlash_none_no_slash _ heqs c hc
          exact ⟨hs, MakeCanonical_chars _ _ _ c hs hc⟩
        · exact findInTree_under _ _ _ _ _ _ _ _ hcall hr
      · exact findInTree_under _ _ _ _ _ _ _ _ hcall hr
    case true =>
      simp only [FindFile, true_and, reduceIte] at hcall
      split at hcall
      · cases hcall; exact absurd rfl hr
      · split at hcall
        · split at hcall
          · rename_i heqs
            refine fdExtsLoop_under ctx tree hbase _ ?_ f exts hsep g r g' hcall hr
            intro c hc
            have hs := splitSlash_none_no_slash _ heqs c hc
            exact ⟨hs, MakeCanonical_chars _ _ _ c hs hc⟩
          · exact findInTree_under _ _ _ _ _ _ _ _ hcall hr
        · exact findInTree_under _ _ _ _ _ _ _ _ hcall hr

/-- A small project tree with one subdirectory `d` holding `N.png`. -/
def treeW : DirectoryTree := ⟨"B", [], [("d", "D")], [("d", [("n", "N.png")])]⟩

/-- Witness for the amended C5 at a concrete input: a hit inside the tree is
prefixed by the tree's base path. -/
theorem c5_containment_witness :
    FindFile ctxPlain 3 gSess treeW "d" "n" [""] false = some ("B/D/N.png", gSess) ∧
    isUnder "B" "B/D/N.png" = true :=
  ⟨by decide,
    c5_containment ctxPlain [""] (by unfold SepFree; decide) treeW (by decide) 3 gSess
      "d" "n" false "B/D/N.png" gSess (by decide) (by decide)⟩

/-- The searched tree of the C5 counterexample (base path `T`, empty). -/
def treeC5 : DirectoryTree := ⟨"T", [], [], []⟩

/-- The global game tree of the C5 counterexample, holding `c/E`. -/
def gC5 : Globals :=
  ⟨some ⟨"GLOBAL", [], [("c", "C")], [("c", [("e", "E")])]⟩,
    ⟨[], true, false, false, [], []⟩, []⟩

/-- C5 counterexample: with the extension `"c/e"` (an extension containing a
separator), a request against the tree rooted at `T` — whose name `..`
triggers the path-correction branch — re-enters the top-level lookup and
returns `GLOBAL/C/E`, a non-empty path that does not lie under `T`: the
claim's universal quantification over extension lists fails. -/
theorem c5_counterexample :
    FindFile ctxPlain 6 gC5 treeC5 "d" ".." ["c/e"] false = some ("GLOBAL/C/E", gC5) ∧
    "GLOBAL/C/E" ≠ "" ∧
    isUnder "T" "GLOBAL/C/E" = false := by
  refine ⟨by decide, by decide, by decide⟩

/-- C7: lookup order of the top-level resolve, first match wins.
(i) The translation overlay is consulted only when a translation id is
active: with no active id, resolving with `tryTranslate` equals resolving
without.  (ii) A non-empty translation-overlay result is returned as is.
(iii) Otherwise a non-empty project-tree result is returned, same extension
list.  (iv) When both miss and RTP is disabled, the result is empty with
exactly one debug-level diagnostic appended.  (v) When both miss and RTP is
enabled, the RTP lookup's result value is returned.  (vi)/(vii) Within a
stage the extension loop returns the first extension whose key is present,
in list order. -/
theorem c7_lookup_order (ctx : Ctx) (f : Nat) (g : Globals) (T : DirectoryTree)
    (hT : g.tree = some T) (d n : String) (exts : List String) :
    (ctx.translationId = "" →
      FindFileTop ctx (f + 2) g d n exts true = FindFileTop ctx (f + 2) g d n exts false) ∧
    (∀ r1 g1, FindFile ctx (f + 1) g T d n exts true = some (r1, g1) → r1 ≠ "" →
      FindFileTop ctx (f + 2) g d n exts true = some (r1, g1)) ∧
    (∀ (tt : Bool) g1 r2 g2,
      (if tt then FindFile ctx (f + 1) g T d n exts true else some ("", g)) = some ("", g1) →
      FindFile ctx (f + 1) g1 T d n exts false = some (r2, g2) → r2 ≠ "" →
      FindFileTop ctx (f + 2) g d n exts tt = some (r2, g2)) ∧
    (∀ (tt : Bool) g1 g2,
      (if tt then FindFile ctx (f + 1) g T d n exts true else some ("", g)) = some ("", g1) →
      FindFile ctx (f + 1) g1 T d n exts false = some ("", g2) →
      g2.rtp.disable_rtp = true →
      FindFileTop ctx (f + 2) g d n exts tt =
        some ("", addLog g2 (LogMsg.debugCannotFind d n))) ∧
    (∀ (tt : Bool) g1 g2 ret fl g3,
      (if tt then FindFile ctx (f + 1) g T d n exts true else some ("", g)) = some ("", g1) →
      FindFile ctx (f + 1) g1 T d n exts false = some ("", g2) →
      g2.rtp.disable_rtp = false →
      rtp_lookup ctx (f + 1) g2 (ctx.norm d) (ctx.norm n) exts false = some (ret, fl, g3) →
      (FindFileTop ctx (f + 2) g d n exts tt).map (fun p => p.1) = some ret) ∧
    (∀ dm nm e es v, mapFind? dm (strCat nm e) = some v →
      extFirst dm nm (e :: es) = some v) ∧
    (∀ dm nm e es, mapFind? dm (strCat nm e) = none →
      extFirst dm nm (e :: es) = extFirst dm nm es) := by
  refine ⟨?_, ?_, ?_, ?_, ?_, ?_, ?_⟩
  · intro h
    have hs1 : FindFile ctx (f + 1) g T d n exts true = some ("", g) := by
      simp [FindFile, h]
    simp only [FindFileTop, hT, hs1, reduceIte]
    simp
  · intro r1 g1 heq1 hr1
    simp [FindFileTop, hT, heq1, hr1]
  · intro tt g1 r2 g2 heq1 heq2 hr2
    cases tt
    case false =>
      have heq1' : (some ("", g) : Option (String × Globals)) = some ("", g1) := heq1
      cases heq1'
      simp [FindFileTop, hT, heq2, hr2]
    case true =>
      have heq1' : FindFile ctx (f + 1) g T d n exts true = some ("", g1) := heq1
      simp [FindFileTop, hT, heq1', heq2, hr2]
  · intro tt g1 g2 heq1 heq2 hdis
    cases tt
    case false =>
      have heq1' : (some ("", g) : Option (String × Globals)) = some ("", g1) := heq1
      cases heq1'
      simp [FindFileTop, hT, heq2, hdis]
    case true =>
      have heq1' : FindFile ctx (f + 1) g T d n exts true = some ("", g1) := heq1
      simp [FindFileTop, hT, heq1', heq2, hdis]
  · intro tt g1 g2 ret fl g3 heq1 heq2 hdis heq3
    cases tt
    case false =>
      have heq1' : (some ("", g) : Option (String × Globals)) = some ("", g1) := heq1
      cases heq1'
      by_cases hret : ret = ""
      · simp [FindFileTop, hT, heq2, hdis, heq3, hret]
      · simp [FindFileTop, hT, heq2, hdis, heq3, hret]
    case true =>
      have heq1' : FindFile ctx (f + 1) g T d n exts true = some ("", g1) := heq1
      by_cases hret : ret = ""
      · simp [FindFileTop, hT, heq1', heq2, hdis, heq3, hret]
      · simp [FindFileTop, hT, heq1', heq2, hdis, heq3, hret]
  · intro dm nm e es v h
    simp [extFirst, h]
  · intro dm nm e es h
    simp [extFirst, h]

/-- Witness for C7 at a concrete input: with both tree stages missing and
RTP disabled, the resolve returns empty with one debug diagnostic. -/
theorem c7_lookup_order_witness :
    FindFileTop ctxPlain 3 gTop "d" "n" [""] false =
      some ("", addLog gTop (LogMsg.debugCannotFind "d" "n")) :=
  (c7_lookup_order ctxPlain 1 gTop ⟨"G", [], [], []⟩ (by decide) "d" "n" [""]).2.2.2.1
    false gTop gTop (by decide) (by decide) (by decide)

/-- Replacing the first occurrence of a single-character escape symbol
(other than the slash it is replaced with) lowers the occurrence count by
one. -/
theorem replaceFirst_single_count (c0 : Char) (hc : c0 ≠ '/') :
    ∀ (cs cs' : List Char), replaceFirst [c0] cs = some cs' →
      cs'.count c0 + 1 = cs.count c0 := by
  intro cs
  induction cs with
  | nil => intro cs' h; simp [replaceFirst] at h
  | cons c rest ih =>
    intro cs' h
    simp only [replaceFirst] at h
    split at h
    · rename_i hpre
      simp [List.isPrefixOf] at hpre
      cases h
      subst hpre
      simp [List.count_cons, hc, Ne.symm hc]
    · rename_i hpre
      simp [List.isPrefixOf] at hpre
      obtain ⟨r', hr', rfl⟩ := Option.map_eq_some'.mp h
      have := ih r' hr'
      simp only [List.count_cons]
      by_cases hcc : c = c0
      · exact absurd hcc.symm hpre
      · simp [hcc]
        omega

/-- For a single-character escape symbol other than `'/'`, the
escape-replacement loop terminates within any fuel exceeding the occurrence
count — so the call-site fuel (`length + 1`) always suffices. -/
theorem escLoop_single_some (c0 : Char) (hc : c0 ≠ '/') :
    ∀ (f : Nat) (cs : List Char), cs.count c0 < f → (escLoop [c0] f cs).isSome := by
  intro f
  induction f with
  | zero => intro cs h; omega
  | succ f ih =>
    intro cs h
    simp only [escLoop]
    split
    · rfl
    · rename_i cs' heq
      apply ih
      have := replaceFirst_single_count c0 hc cs cs' heq
      omega

/-- `findInTree` is total — never an invalid dereference — when the escape
symbol is a single non-slash character and every `directories` key is
present in `sub_members`. -/
theorem findInTree_some (ctx : Ctx) (c0 : Char) (hesc : ctx.escape_symbol.toList = [c0])
    (hc : c0 ≠ '/') (tree : DirectoryTree)
    (hdom : ∀ k, (mapFind? tree.directories k).isSome → (smFind? tree.sub_members k).isSome)
    (g : Globals) (cd cn : String) (exts : List String) :
    (findInTree ctx g tree cd cn exts).isSome := by
  unfold findInTree
  rw [hesc]
  have hloop := escLoop_single_some c0 hc (cn.toList.length + 1) cn.toList
    (by have := List.count_le_length c0 cn.toList; omega)
  cases hl : escLoop [c0] (cn.toList.length + 1) cn.toList with
  | none => rw [hl] at hloop; simp at hloop
  | some cn' =>
    cases hd : mapFind? tree.directories cd with
    | none => simp [hd]
    | some dirOrig =>
      have hsm := hdom cd (by rw [hd]; rfl)
      cases hs : smFind? tree.sub_members cd with
      | none => rw [hs] at hsm; simp at hsm
      | some dm =>
        cases he : extFirst dm (String.mk cn') exts with
        | none => simp [hd, hs, he]
        | some orig => simp [hd, hs, he]

/-- `FindDefault(tree, name)` on a single-component name always returns. -/
theorem FindDefaultTree_single_some (ctx : Ctx) (f : Nat) (g : Globals)
    (tree : DirectoryTree) (nm w : String)
    (hsplit : SplitPath ctx.escape_symbol nm = [w]) :
    (FindDefaultTree ctx (f + 1) g tree nm).isSome := by
  simp only [FindDefaultTree]
  split
  · rename_i c0 c1 rest heq
    rw [hsplit] at heq
    simp at heq
  · split <;> rfl

/-- The path-correction extension loop always returns, given enough fuel, a
delimiter-free canonical name and delimiter-free extensions. -/
theorem fdExtsLoop_some (ctx : Ctx) (tree : DirectoryTree) (canon : String)
    (hcanon : ∀ c ∈ canon.toList, c ≠ '/' ∧ c ≠ escChar ctx.escape_symbol) :
    ∀ (f : Nat) (exts : List String), SepFree ctx exts → exts.length + 1 ≤ f →
      ∀ (g : Globals), (fdExtsLoop ctx f g tree canon exts).isSome := by
  intro f
  induction f with
  | zero => intro exts _ hfuel g; omega
  | succ f ih =>
    intro exts hsep hfuel g
    match exts with
    | [] => simp [fdExtsLoop]
    | e :: es =>
      have hsingle : SplitPath ctx.escape_symbol (strCat canon e) = [strCat canon e] := by
        apply SplitPath_single
        intro c hc
        rw [strCat_toList] at hc
        rcases List.mem_append.mp hc with h | h
        · have := hcanon c h
          tauto
        · have := hsep e (List.mem_cons_self e es) c h
          tauto
      have hf : es.length + 1 ≤ f := by
        simp only [List.length_cons] at hfuel
        omega
      simp only [fdExtsLoop]
      split
      · rename_i heq
        exfalso
        cases f with
        | zero => omega
        | succ f' =>
          have hfdt := FindDefaultTree_single_some ctx f' g tree (strCat canon e)
            (strCat canon e) hsingle
          rw [heq] at hfdt
          simp at hfdt
      · split
        · rfl
        · rename_i r1 g1 heq hr1
          exact ih es (fun x hx => hsep x (List.mem_cons_of_mem e hx)) hf g1

/-- The tree-level `FindFile` is total — no invalid dereference, no
non-terminating escape loop, enough fuel — when the extension list is
delimiter-free, the escape symbol is a single non-slash character, and every
`directories` key of the tree is present in its `sub_members`. -/
theorem FindFile_some (ctx : Ctx) (exts : List String) (hsep : SepFree ctx exts)
    (c0 : Char) (hesc : ctx.escape_symbol.toList = [c0]) (hc : c0 ≠ '/')
    (tree : DirectoryTree)
    (hdom : ∀ k, (mapFind? tree.directories k).isSome → (smFind? tree.sub_members k).isSome) :
    ∀ (fuel : Nat) (g : Globals) (d n : String) (tr : Bool),
      exts.length + 2 ≤ fuel → (FindFile ctx fuel g tree d n exts tr).isSome := by
  intro fuel g d n tr hfuel
  match fuel with
  | 0 => omega
  | f + 1 =>
    have hf : exts.length + 1 ≤ f := by omega
    cases tr
    case false =>
      simp only [FindFile, Bool.false_eq_true, false_and, if_false]
      split
      · split
        · rename_i heqs
          refine fdExtsLoop_some ctx tree _ ?_ f exts hsep hf g
          intro c hcc
          have hs := splitSlash_none_no_slash _ heqs c hcc
          exact ⟨hs, MakeCanonical_chars _ _ _ c hs hcc⟩
        · exact findInTree_some ctx c0 hesc hc tree hdom g _ _ exts
      · exact findInTree_some ctx c0 hesc hc tree hdom g _ _ exts
    case true =>
      simp only [FindFile, true_and, reduceIte]
      split
      · rfl
      · split
        · split
          · rename_i heqs
            refine fdExtsLoop_some ctx tree _ ?_ f exts hsep hf g
            intro c hcc
            have hs := splitSlash_none_no_slash _ heqs c hcc
            exact ⟨hs, MakeCanonical_chars _ _ _ c hs hcc⟩
          · exact findInTree_some ctx c0 hesc hc tree hdom g _ _ exts
        · exact findInTree_some ctx c0 hesc hc tree hdom g _ _ exts

/-- A flat (non-recursive) entry scan always returns, given fuel beyond the
entry count. -/
theorem scanEntries_flat_some (ctx : Ctx) (fs : FS) (path parent : String) (m : Mode)
    (hm : m ≠ Mode.RECURSIVE) :
    ∀ (f : Nat) (l : List (String × Bool)) (acc : Directory) (logs : List LogMsg),
      l.length < f → (scanEntries ctx fs f path m parent l acc logs).isSome := by
  intro f
  induction f with
  | zero => intro l acc logs h; omega
  | succ f ih =>
    intro l acc logs h
    match l with
    | [] => simp [scanEntries]
    | (name, isDirE) :: rest =>
      have hr : rest.length < f := by simp only [List.length_cons] at h; omega
      simp only [scanEntries]
      cases m with
      | RECURSIVE => exact absurd rfl hm
      | FILES =>
        dsimp only
        repeat' split
        all_goals exact ih rest _ _ hr
      | DIRECTORIES =>
        dsimp only
        repeat' split
        all_goals exact ih rest _ _ hr
      | ALL =>
        dsimp only
        repeat' split
        all_goals exact ih rest _ _ hr

/-- A flat `GetDirectoryMembers` scan of a valid directory always returns. -/
theorem GetDirectoryMembers_flat_some (ctx : Ctx) (fs : FS) (p parent : String) (m : Mode)
    (hm : m ≠ Mode.RECURSIVE) (hex : fs.fexists p = true) (hdir : fs.isDir p = true)
    (l : List (String × Bool)) (hent : fs.entries p = some l) (fuel : Nat)
    (hfuel : l.length + 2 ≤ fuel) :
    (GetDirectoryMembers ctx fs fuel p m parent).isSome := by
  match fuel with
  | 0 => omega
  | f + 1 =>
    simp only [GetDirectoryMembers, hex, hdir, hent, and_self, if_true]
    exact scanEntries_flat_some ctx fs p parent m hm f l _ _ (by omega)

/-- `CreateDirectoryTree` on a nonexistent or non-directory path is the
ordinary absent value, not an abnormal outcome. -/
theorem CreateDirectoryTree_absent (ctx : Ctx) (fs : FS) (fuel : Nat) (p : String)
    (mode : Mode) (h : ¬(fs.fexists p = true ∧ fs.isDir p = true)) :
    CreateDirectoryTree ctx fs fuel p mode = some (none, []) := by
  unfold CreateDirectoryTree
  rw [if_neg h]

/-- C9 as amended: totality holds with the two carve-outs the counterexample
and the entry asserts force.  (i) Tree construction on a nonexistent or
non-directory path degrades to the absent value.  (ii) The directory-member
scan is total on valid directory paths (shown here for the flat modes; its
entry `assert`s make a nonexistent path abnormal, contradicting the original
claim).  (iii) The tree-level resolve is total whenever every `directories`
key is present in `sub_members` (the counterexample shows the dereference at
the `sub_members` lookup is invalid otherwise), the escape symbol is a
single non-slash character (the escape-replacement loop would not terminate
otherwise) and the extension list is delimiter-free with sufficient fuel. -/
theorem c9_totality (ctx : Ctx) (fs : FS) :
    (∀ (fuel : Nat) (p : String) (mode : Mode),
      ¬(fs.fexists p = true ∧ fs.isDir p = true) →
      CreateDirectoryTree ctx fs fuel p mode = some (none, [])) ∧
    (∀ (fuel : Nat) (p parent : String) (m : Mode) (l : List (String × Bool)),
      m ≠ Mode.RECURSIVE → fs.fexists p = true → fs.isDir p = true →
      fs.entries p = some l → l.length + 2 ≤ fuel →
      (GetDirectoryMembers ctx fs fuel p m parent).isSome) ∧
    (∀ (exts : List String), SepFree ctx exts →
      ∀ (c0 : Char), ctx.escape_symbol.toList = [c0] → c0 ≠ '/' →
      ∀ (tree : DirectoryTree),
        (∀ k, (mapFind? tree.directories k).isSome → (smFind? tree.sub_members k).isSome) →
      ∀ (fuel : Nat) (g : Globals) (d n : String) (tr : Bool), exts.length + 2 ≤ fuel →
      (FindFile ctx fuel g tree d n exts tr).isSome) := by
  refine ⟨?_, ?_, ?_⟩
  · intro fuel p mode h
    exact CreateDirectoryTree_absent ctx fs fuel p mode h
  · intro fuel p parent m l hm hex hdir hent hfuel
    exact GetDirectoryMembers_flat_some ctx fs p parent m hm hex hdir l hent fuel hfuel
  · intro exts hsep c0 hesc hc tree hdom fuel g d n tr hfuel
    exact FindFile_some ctx exts hsep c0 hesc hc tree hdom fuel g d n tr hfuel

/-- The empty filesystem. -/
def fsEmpty : FS := ⟨fun _ => false, fun _ => false, fun _ => none⟩

/-- Witness for the amended C9 at a concrete input: building a tree over a
nonexistent path yields the absent value. -/
theorem c9_totality_witness :
    CreateDirectoryTree ctxPlain fsEmpty 1 "p" Mode.FILES = some (none, []) :=
  (c9_totality ctxPlain fsEmpty).1 1 "p" Mode.FILES (by decide)
